import Mathlib

/-!
Verification of the builtin function evaluation library (src/func.cc).

Modelling choices:

* IEEE-754 doubles are idealised as exact rationals extended with the three
  non-finite flavours (`D`): `nan`, `inf`, `ninf`, `fin q`.  Comparisons follow
  IEEE semantics (everything involving `nan` is false); arithmetic on finite
  values is exact rational arithmetic.  Rounding error is outside the model.
* `Value` is the dynamically typed script value: Undefined, Number, String
  (a sequence of Unicode code points, matching the glyph-wise iteration the
  code performs over UTF-8), or Vector of Values.
* A C++ out-of-bounds `std::vector` access (undefined behaviour) is embedded
  as `Option`: a builtin whose execution would perform such an access
  returns `none`.
* Diagnostics (`PRINT`/`PRINTB`) are collected in a `List String` component
  of the result of each builtin that can emit them.
* The libm primitives (`sin`, `cos` on radians, the constants `M_PI` and
  `M_SQRT1_2`) and the boost random machinery are external to the
  repository; they are abstracted as parameters (`LibM`, the generator
  operations of `builtin_rands`).
-/

/-- An IEEE-754 double, idealised: exact rational for the finite values plus
the two infinities and NaN. -/
inductive D where
  | nan : D
  | inf : D
  | ninf : D
  | fin (q : ℚ) : D
deriving DecidableEq

/-- IEEE equality (`==` on doubles): `nan` is equal to nothing, `nan` included. -/
def D.beq : D → D → Bool
  | D.nan, _ => false
  | _, D.nan => false
  | D.inf, D.inf => true
  | D.ninf, D.ninf => true
  | D.fin a, D.fin b => decide (a = b)
  | _, _ => false

/-- IEEE strict order (`<` on doubles): any comparison with `nan` is false. -/
def D.lt : D → D → Bool
  | D.nan, _ => false
  | _, D.nan => false
  | D.ninf, D.ninf => false
  | D.ninf, _ => true
  | _, D.ninf => false
  | D.inf, _ => false
  | D.fin _, D.inf => true
  | D.fin a, D.fin b => decide (a < b)

/-- IEEE `<=`: equivalent to `<` or `==` (false whenever `nan` is involved). -/
def D.le (a b : D) : Bool := D.lt a b || D.beq a b

def D.neg : D → D
  | D.nan => D.nan
  | D.inf => D.ninf
  | D.ninf => D.inf
  | D.fin a => D.fin (-a)

def D.add : D → D → D
  | D.nan, _ => D.nan
  | _, D.nan => D.nan
  | D.inf, D.ninf => D.nan
  | D.ninf, D.inf => D.nan
  | D.inf, _ => D.inf
  | _, D.inf => D.inf
  | D.ninf, _ => D.ninf
  | _, D.ninf => D.ninf
  | D.fin a, D.fin b => D.fin (a + b)

def D.sub (a b : D) : D := D.add a (D.neg b)

def D.mul : D → D → D
  | D.nan, _ => D.nan
  | _, D.nan => D.nan
  | D.inf, D.inf => D.inf
  | D.inf, D.ninf => D.ninf
  | D.ninf, D.inf => D.ninf
  | D.ninf, D.ninf => D.inf
  | D.inf, D.fin b => if b = 0 then D.nan else if 0 < b then D.inf else D.ninf
  | D.fin a, D.inf => if a = 0 then D.nan else if 0 < a then D.inf else D.ninf
  | D.ninf, D.fin b => if b = 0 then D.nan else if 0 < b then D.ninf else D.inf
  | D.fin a, D.ninf => if a = 0 then D.nan else if 0 < a then D.ninf else D.inf
  | D.fin a, D.fin b => D.fin (a * b)

/-- IEEE division (signed zeros are not modelled: a finite value divided by an
infinity gives the single zero `fin 0`). -/
def D.div : D → D → D
  | D.nan, _ => D.nan
  | _, D.nan => D.nan
  | D.inf, D.inf => D.nan
  | D.inf, D.ninf => D.nan
  | D.ninf, D.inf => D.nan
  | D.ninf, D.ninf => D.nan
  | D.inf, D.fin b => if 0 ≤ b then D.inf else D.ninf
  | D.ninf, D.fin b => if 0 ≤ b then D.ninf else D.inf
  | D.fin _, D.inf => D.fin 0
  | D.fin _, D.ninf => D.fin 0
  | D.fin a, D.fin b =>
      if b = 0 then (if a = 0 then D.nan else if 0 < a then D.inf else D.ninf)
      else D.fin (a / b)

/-- The C cast `(unsigned int)x` on the values the scripts actually pass
(non-negative, in range): truncation toward zero.  Out-of-range or negative
casts are undefined behaviour in C and are mapped to 0 here; no claim
exercises them. -/
def D.castUInt : D → Nat
  | D.fin q => if 0 ≤ q then (Int.floor q).toNat else 0
  | _ => 0

/-- The C cast `(int)x` for in-range values: truncation toward zero (again,
out-of-range casts are UB in C; the model simply truncates). -/
def D.castInt : D → Int
  | D.fin q => if 0 ≤ q then Int.floor q else -Int.floor (-q)
  | _ => 0

/-- The script value model (Value in value.h): Undefined, Number, String of
Unicode code points, or Vector of Values. -/
inductive Value where
  | undef : Value
  | num (d : D) : Value
  | str (s : List Char) : Value
  | vec (l : List Value) : Value

def Value.isNum : Value → Bool
  | Value.num _ => true
  | _ => false

def Value.isVec : Value → Bool
  | Value.vec _ => true
  | _ => false

/-- Modelled from the spec: `Value::toVector` (value.cc is not in src/).  The
vector view: the elements for a Vector, the empty sequence for any other
variant (the call sites in func.cc rely on the non-Vector case giving an
empty vector). -/
def Value.toVector : Value → List Value
  | Value.vec l => l
  | _ => []

/-- Modelled from the spec: `Value::getDouble` (value.cc is not in src/).
Succeeds exactly on Numbers ("lossy numeric conversion, defined only for
Number; other variants yield a caller-visible failure signal"). -/
def Value.getDouble : Value → Option D
  | Value.num d => some d
  | _ => none

/-- Modelled from the spec: `Value::toDouble` (value.cc is not in src/): the
number for a Number, 0 otherwise. -/
def Value.toDouble (v : Value) : D := (Value.getDouble v).getD (D.fin 0)

/-- Modelled from the spec: `Value::getVec2` (value.cc is not in src/).
Succeeds only when the Value is a Vector of exactly 2 Number elements. -/
def Value.getVec2 : Value → Option (D × D)
  | Value.vec [Value.num a, Value.num b] => some (a, b)
  | _ => none

mutual

/-- Modelled from the spec: `Value::operator==` (value.cc is not in src/).
Equality is pairwise between same-variant values (cross-variant comparison is
"incomparable", i.e. false); Numbers compare by IEEE equality. -/
def Value.beq : Value → Value → Bool
  | Value.undef, Value.undef => true
  | Value.num a, Value.num b => D.beq a b
  | Value.str a, Value.str b => decide (a = b)
  | Value.vec a, Value.vec b => Value.beqList a b
  | _, _ => false

/-- Elementwise equality of Value sequences (same length, pairwise equal). -/
def Value.beqList : List Value → List Value → Bool
  | [], [] => true
  | x :: xs, y :: ys => Value.beq x y && Value.beqList xs ys
  | _, _ => false

end

mutual

/-- Modelled from the spec: `Value::operator<` (value.cc is not in src/).
Ordering is pairwise between same-variant values (cross-variant comparison is
false / "incomparable"); Numbers by IEEE `<`, Strings and Vectors
lexicographically. -/
def Value.ltv : Value → Value → Bool
  | Value.num a, Value.num b => D.lt a b
  | Value.str a, Value.str b => decide (a < b)
  | Value.vec a, Value.vec b => Value.ltList a b
  | _, _ => false

/-- Lexicographic order on Value sequences. -/
def Value.ltList : List Value → List Value → Bool
  | [], [] => false
  | [], _ :: _ => true
  | _ :: _, [] => false
  | x :: xs, y :: ys =>
      if Value.ltv x y then true
      else if Value.beq x y then Value.ltList xs ys else false

end

/-! ## min / max (builtin_min, builtin_max) -/

/-- The flat positional scan of `builtin_min`: seeded by the first argument's
number, steps through the remaining arguments and jumps to `quit`
(returning Undefined) at the first non-Number. -/
def minScan : D → List Value → Value
  | val, [] => Value.num val
  | val, Value.num x :: rest => minScan (if D.lt x val then x else val) rest
  | _, _ :: _ => Value.undef

/-- The flat positional scan of `builtin_max` (same early exit to `quit`). -/
def maxScan : D → List Value → Value
  | val, [] => Value.num val
  | val, Value.num x :: rest => maxScan (if D.lt val x then x else val) rest
  | _, _ :: _ => Value.undef

/-- `builtin_min` (func.cc): one non-empty Vector argument reduces the
vector's own elements with `Value::operator<`; otherwise a Number first
argument seeds a left-to-right scan of the remaining arguments that jumps to
`quit` (Undefined) at the first non-Number. -/
def builtin_min (args : List Value) : Value :=
  match args with
  | [Value.vec (x :: xs)] =>
      xs.foldl (fun m v => if Value.ltv v m then v else m) x
  | v0 :: rest =>
      match v0 with
      | Value.num d => minScan d rest
      | _ => Value.undef
  | [] => Value.undef

/-- `builtin_max` (func.cc): mirror image of `builtin_min`. -/
def builtin_max (args : List Value) : Value :=
  match args with
  | [Value.vec (x :: xs)] =>
      xs.foldl (fun m v => if Value.ltv m v then v else m) x
  | v0 :: rest =>
      match v0 with
      | Value.num d => maxScan d rest
      | _ => Value.undef
  | [] => Value.undef

/-! ## sin / cos (builtin_sin, builtin_cos) -/

/-- The libm / build-time constants external to the repository, abstracted:
radian `sin` and `cos`, the double constants `M_PI` and `M_SQRT1_2`, and
`sqrt` (used by `builtin_norm`). -/
structure LibM where
  csin : ℚ → ℚ
  ccos : ℚ → ℚ
  pi : ℚ
  sqrt1_2 : ℚ
  csqrt : ℚ → ℚ

/-- `deg2rad` (func.cc): `x * M_PI / 180.0`. -/
def deg2rad (lm : LibM) (x : ℚ) : ℚ := x * lm.pi / 180

/-- `TRIG_HUGE_VAL` (func.cc): `(1L<<26)*360.0*(1L<<26)`, i.e. `360 * 2^52`. -/
def TRIG_HUGE_VAL : ℚ := ((2 : ℚ) ^ 26) * 360 * ((2 : ℚ) ^ 26)

/-- The shared domain-reduction prologue of `builtin_sin`/`builtin_cos`:
an argument already in `[0,360)` is kept; otherwise a finite argument
strictly inside `(-TRIG_HUGE_VAL, TRIG_HUGE_VAL)` is reduced by
`x - 360*floor(x/360)`; everything else (at or beyond the threshold,
`±Inf`, `NaN`) yields `none`, which the builtins turn into NaN. -/
def trigReduce : D → Option ℚ
  | D.fin x =>
      if 0 ≤ x ∧ x < 360 then some x
      else if -TRIG_HUGE_VAL < x ∧ x < TRIG_HUGE_VAL then
        some (x - 360 * ((Int.floor (x / 360) : ℤ) : ℚ))
      else none
  | _ => none

/-- The octant-symmetry epilogue of `builtin_sin` on the reduced argument. -/
def sinPost (lm : LibM) (x0 : ℚ) : ℚ :=
  let oppose := 180 ≤ x0
  let x1 := if oppose then x0 - 180 else x0
  let x2 := if 90 < x1 then 180 - x1 else x1
  let x3 :=
    if x2 < 45 then (if x2 = 30 then 1/2 else lm.csin (deg2rad lm x2))
    else if x2 = 45 then lm.sqrt1_2
    else lm.ccos (deg2rad lm (90 - x2))
  if oppose then -x3 else x3

/-- The octant-symmetry epilogue of `builtin_cos` on the reduced argument. -/
def cosPost (lm : LibM) (x0 : ℚ) : ℚ :=
  let oppose0 : Bool := decide (180 ≤ x0)
  let x1 := if oppose0 then x0 - 180 else x0
  let oppose : Bool := if 90 < x1 then !oppose0 else oppose0
  let x2 := if 90 < x1 then 180 - x1 else x1
  let x3 :=
    if 45 < x2 then (if x2 = 60 then 1/2 else lm.csin (deg2rad lm (90 - x2)))
    else if x2 = 45 then lm.sqrt1_2
    else lm.ccos (deg2rad lm x2)
  if oppose then -x3 else x3

/-- `builtin_sin` (func.cc): one Number argument; huge/non-finite arguments
give NaN, all others are domain-reduced and passed to the symmetry epilogue. -/
def builtin_sin (lm : LibM) (args : List Value) : Value :=
  match args with
  | [Value.num d] =>
      match trigReduce d with
      | none => Value.num D.nan
      | some x => Value.num (D.fin (sinPost lm x))
  | [_] => Value.undef
  | _ => Value.undef

/-- `builtin_cos` (func.cc): as `builtin_sin` with the cosine epilogue. -/
def builtin_cos (lm : LibM) (args : List Value) : Value :=
  match args with
  | [Value.num d] =>
      match trigReduce d with
      | none => Value.num D.nan
      | some x => Value.num (D.fin (cosPost lm x))
  | [_] => Value.undef
  | _ => Value.undef

/-! ## rands (builtin_rands) -/

/-- The sampling loop of `builtin_rands`: `n` sequential draws from one
generator stream through the abstracted boost `uniform_real` distributor. -/
def randsDraw {G : Type} (uniform : D → D → G → D × G) (lo hi : D) :
    Nat → G → List Value × G
  | 0, g => ([], g)
  | n + 1, g =>
      let (q, g1) := uniform lo hi g
      let (rest, g2) := randsDraw uniform lo hi n g1
      (Value.num q :: rest, g2)

/-- `builtin_rands` (func.cc), with the two process-global generator streams
passed and returned explicitly (deterministic stream first).  The boost
machinery is external to the repository and abstracted: `seedF` reseeds the
deterministic stream from the cast seed, `uniform` is one draw of
`boost::uniform_real<>(min,max)`.  Swaps an inverted range, clamps the count
to a non-negative integer, reseeds when a 4th argument is present, and skips
the distributor entirely when `min == max`. -/
def builtin_rands {G : Type} (seedF : Nat → G) (uniform : D → D → G → D × G)
    (det less : G) (args : List Value) : Value × G × G :=
  match args with
  | [Value.num v0, Value.num v1, Value.num v2] =>
      let mn := if D.lt v1 v0 then v1 else v0
      let mx := if D.lt v1 v0 then v0 else v1
      let numresults := (max 0 (D.castInt v2)).toNat
      if D.beq mn mx then
        (Value.vec (List.replicate numresults (Value.num mn)), det, less)
      else
        let (vals, less2) := randsDraw uniform mn mx numresults less
        (Value.vec vals, det, less2)
  | [Value.num v0, Value.num v1, Value.num v2, Value.num v3] =>
      let mn := if D.lt v1 v0 then v1 else v0
      let mx := if D.lt v1 v0 then v0 else v1
      let numresults := (max 0 (D.castInt v2)).toNat
      let det1 := seedF (D.castUInt v3)
      if D.beq mn mx then
        (Value.vec (List.replicate numresults (Value.num mn)), det1, less)
      else
        let (vals, det2) := randsDraw uniform mn mx numresults det1
        (Value.vec vals, det2, less)
  | _ => (Value.undef, det, less)

/-! ## lookup (builtin_lookup) -/

/-- One step of `builtin_lookup`'s bracket scan: a row that decomposes as a
numeric pair may tighten the low bracket (position ≤ query and closer to, or
on the opposite side of, the query) and, independently, the high bracket;
any other row is skipped. -/
def lookupScanRow (p : D) (st : D × D × D × D) (row : Value) : D × D × D × D :=
  match Value.getVec2 row with
  | none => st
  | some (tp, tv) =>
      let (lp, lv, hp, hv) := st
      let (lp1, lv1) :=
        if D.le tp p && (D.lt lp tp || D.lt p lp) then (tp, tv) else (lp, lv)
      let (hp1, hv1) :=
        if D.le p tp && (D.lt tp hp || D.lt hp p) then (tp, tv) else (hp, hv)
      (lp1, lv1, hp1, hv1)

/-- The bracket scan of `builtin_lookup` over the rows after the first. -/
def lookupScan (p : D) (st : D × D × D × D) (rows : List Value) : D × D × D × D :=
  rows.foldl (lookupScanRow p) st

/-- `builtin_lookup` (func.cc).  Needs at least two arguments, a Number
query first; it then indexes row 0 of the second argument's vector view — an
out-of-bounds access (UB, embedded as `none`) when that view is empty —
seeds both brackets from that row via two `getVec2` calls, scans the
remaining rows, and clamps or linearly interpolates. -/
def builtin_lookup (args : List Value) : Option Value :=
  match args with
  | a0 :: a1 :: _ =>
      match Value.getDouble a0 with
      | none => some Value.undef
      | some p =>
          match (Value.toVector a1).get? 0 with
          | none => none
          | some row0 =>
              if (Value.toVector row0).length < 2 then some Value.undef
              else
                match Value.getVec2 row0 with
                | none => some Value.undef
                | some (lp0, lv0) =>
                    match Value.getVec2 row0 with
                    | none => some Value.undef
                    | some (hp0, hv0) =>
                        let st := lookupScan p (lp0, lv0, hp0, hv0)
                          ((Value.toVector a1).drop 1)
                        let (lp, lv, hp, hv) := st
                        if D.le p lp then some (Value.num hv)
                        else if D.le hp p then some (Value.num lv)
                        else
                          let f := D.div (D.sub p lp) (D.sub hp lp)
                          some (Value.num
                            (D.add (D.mul hv f) (D.mul lv (D.sub (D.fin 1) f))))
  | _ => some Value.undef

/-! ## norm (builtin_norm) -/

/-- The accumulation loop of `builtin_norm`: sums squares of Number elements,
aborting (`none`) at the first non-Number element. -/
def normLoop : D → List Value → Option D
  | acc, [] => some acc
  | acc, Value.num x :: rest => normLoop (D.add acc (D.mul x x)) rest
  | _, _ :: _ => none

/-- `builtin_norm` (func.cc): one Vector argument; the square root of the sum
of squares of its elements, or Undefined plus a diagnostic when some element
is not a Number.  `csqrtD` applies the abstracted libm `sqrt` to a double. -/
def csqrtD (lm : LibM) : D → D
  | D.fin q => if 0 ≤ q then D.fin (lm.csqrt q) else D.nan
  | D.inf => D.inf
  | D.ninf => D.nan
  | D.nan => D.nan

def builtin_norm (lm : LibM) (args : List Value) : Value × List String :=
  match args with
  | [Value.vec l] =>
      match normLoop (D.fin 0) l with
      | some s => (Value.num (csqrtD lm s), [])
      | none => (Value.undef, ["  WARNING: Incorrect arguments to norm()"])
  | _ => (Value.undef, [])

/-! ## cross (builtin_cross) -/

/-- The per-component validation of `builtin_cross`: both components must be
Numbers, neither NaN nor infinite; the first violated check's message. -/
def crossElemCheck : Value → Value → Option String
  | Value.num d0, Value.num d1 =>
      if d0 = D.nan ∨ d1 = D.nan then
        some "WARNING: Invalid value (NaN) in parameter vector for cross()"
      else if d0 = D.inf ∨ d0 = D.ninf ∨ d1 = D.inf ∨ d1 = D.ninf then
        some "WARNING: Invalid value (INF) in parameter vector for cross()"
      else none
  | _, _ => some "WARNING: Invalid value in parameter vector for cross()"

/-- `builtin_cross` (func.cc): exactly two 3-element Vectors of finite
Numbers, else Undefined plus a diagnostic naming the violated check; the
standard 3D cross product otherwise. -/
def builtin_cross (args : List Value) : Value × List String :=
  match args with
  | [arg0, arg1] =>
      if ¬(arg0.isVec ∧ arg1.isVec) then
        (Value.undef, ["WARNING: Invalid type of parameters for cross()"])
      else
        match Value.toVector arg0, Value.toVector arg1 with
        | [a0, a1, a2], [b0, b1, b2] =>
            match crossElemCheck a0 b0 with
            | some msg => (Value.undef, [msg])
            | none =>
                match crossElemCheck a1 b1 with
                | some msg => (Value.undef, [msg])
                | none =>
                    match crossElemCheck a2 b2 with
                    | some msg => (Value.undef, [msg])
                    | none =>
                        let x := D.sub (D.mul (Value.toDouble a1) (Value.toDouble b2))
                                       (D.mul (Value.toDouble a2) (Value.toDouble b1))
                        let y := D.sub (D.mul (Value.toDouble a2) (Value.toDouble b0))
                                       (D.mul (Value.toDouble a0) (Value.toDouble b2))
                        let z := D.sub (D.mul (Value.toDouble a0) (Value.toDouble b1))
                                       (D.mul (Value.toDouble a1) (Value.toDouble b0))
                        (Value.vec [Value.num x, Value.num y, Value.num z], [])
        | _, _ =>
            (Value.undef, ["WARNING: Invalid vector size of parameter for cross()"])
  | _ => (Value.undef, ["WARNING: Invalid number of parameters for cross()"])

/-! ## search (builtin_search and its two static helpers) -/

def natNum (j : Nat) : Value := Value.num (D.fin j)

/-- The "search term not found" diagnostic for one needle code point. -/
def notFoundMsg (c : Char) : String :=
  "  WARNING: search term not found: \"" ++ String.mk [c] ++ "\""

/-- The inner haystack loop of the string/string `search` helper, for one
needle code point `c`: match positions in order; with `returnsPerMatch == 1`
it stops at the first match, with `returnsPerMatch > 1` it stops once the
match count reaches the cap, with 0 it is unlimited. -/
def searchStrScan (c : Char) (rpm : Nat) : Nat → Nat → List Char → List Nat
  | _, _, [] => []
  | j, m, t :: ts =>
      if t = c then
        if rpm = 1 then [j]
        else if rpm > 1 ∧ m + 1 ≥ rpm then [j]
        else j :: searchStrScan c rpm (j + 1) (m + 1) ts
      else searchStrScan c rpm (j + 1) m ts

/-- The string/string `search` helper (func.cc): per needle code point, a
flat scalar contribution when `returnsPerMatch == 1` (nothing on no match),
else one sub-vector; a no-match code point emits a diagnostic.  The
`idx_col` parameter is accepted and unused, as in the source. -/
def search_string (table : List Char) (rpm idx_col : Nat) :
    List Char → List Value × List String
  | [] => ([], [])
  | c :: cs =>
      let res := searchStrScan c rpm 0 0 table
      let here : List Value :=
        if rpm = 1 then res.map natNum else [Value.vec (res.map natNum)]
      let warn : List String := if res.length = 0 then [notFoundMsg c] else []
      let (rest, warns) := search_string table rpm idx_col cs
      (here ++ rest, warn ++ warns)

/-- Modelled from the spec: `Value::toString` (value.cc is not in src/).
Only its action on Strings (the identity) is relied on by any claim; the
textual rendering of the other variants is unspecified here and given fixed
placeholders. -/
def Value.toStr : Value → List Char
  | Value.str s => s
  | Value.undef => ['u', 'n', 'd', 'e', 'f']
  | Value.num _ => []
  | Value.vec _ => []

/-- The inner haystack loop of the string/vector-table `search` helper: for
needle code point `c`, row `j` matches when the first code point of the
rendered `idx_col` cell equals `c` (an empty rendering reads as the NUL code
point).  Reading the `idx_col` cell of a row whose vector view is too short
is an out-of-bounds access (UB): `none`. -/
def searchVecScan (c : Char) (rpm icn : Nat) : Nat → Nat → List Value → Option (List Nat)
  | _, _, [] => some []
  | j, m, row :: rows =>
      match (Value.toVector row).get? icn with
      | none => none
      | some cell =>
          if (Value.toStr cell).headD (Char.ofNat 0) = c then
            if rpm = 1 then some [j]
            else if rpm > 1 ∧ m + 1 ≥ rpm then some [j]
            else (searchVecScan c rpm icn (j + 1) (m + 1) rows).map (fun r => j :: r)
          else searchVecScan c rpm icn (j + 1) m rows

/-- The string/vector-table `search` helper (func.cc): same outer result
shaping as the string/string helper, over rows instead of haystack
code points. -/
def search_vector (table : List Value) (rpm icn : Nat) :
    List Char → Option (List Value × List String)
  | [] => some ([], [])
  | c :: cs =>
      match searchVecScan c rpm icn 0 0 table with
      | none => none
      | some res =>
          let here : List Value :=
            if rpm = 1 then res.map natNum else [Value.vec (res.map natNum)]
          let warn : List String := if res.length = 0 then [notFoundMsg c] else []
          match search_vector table rpm icn cs with
          | none => none
          | some (rest, warns) => some (here ++ rest, warn ++ warns)

/-- The row-match condition shared by the Number-needle and Vector-needle
paths of `builtin_search` (note the `&&`-over-`||` precedence of the
source): the needle equals the row itself (only checked when the index
column is 0), or the row's vector view is long enough and the needle equals
its `icn`-th element. -/
def matchAt (findv row : Value) (icn : Nat) : Bool :=
  (decide (icn = 0) && Value.beq findv row) ||
  (decide (icn < (Value.toVector row).length) &&
    Value.beq findv ((Value.toVector row).getD icn Value.undef))

/-- The Number-needle loop of `builtin_search`: matching row indices in
order, capped at `returnsPerMatch` matches (0 = unlimited). -/
def searchNumScan (findv : Value) (rpm icn : Nat) : Nat → Nat → List Value → List Nat
  | _, _, [] => []
  | j, m, row :: rows =>
      if matchAt findv row icn then
        if rpm ≠ 0 ∧ m + 1 ≥ rpm then [j]
        else j :: searchNumScan findv rpm icn (j + 1) (m + 1) rows
      else searchNumScan findv rpm icn (j + 1) m rows

/-- The inner loop of the Vector-needle path of `builtin_search`, for one
needle element (same break structure as the string helpers). -/
def searchElemScan (findv : Value) (rpm icn : Nat) : Nat → Nat → List Value → List Nat
  | _, _, [] => []
  | j, m, row :: rows =>
      if matchAt findv row icn then
        if rpm = 1 then [j]
        else if rpm > 1 ∧ m + 1 ≥ rpm then [j]
        else j :: searchElemScan findv rpm icn (j + 1) (m + 1) rows
      else searchElemScan findv rpm icn (j + 1) m rows

/-- The "search term not found" diagnostic of the Vector-needle path: only
Number and String needle elements are reported (the numeric rendering is not
modelled; see `Value.toStr`). -/
def searchNotFoundWarn : Value → List String
  | Value.num _ => ["  WARNING: search term not found"]
  | Value.str s => ["  WARNING: search term not found: \"" ++ String.mk s ++ "\""]
  | _ => []

/-- The Vector-needle path of `builtin_search`: per needle element, with
`returnsPerMatch == 1` either a flat scalar (first match) or — unlike the
string helpers — an empty sub-vector plus a diagnostic on no match; with
`returnsPerMatch == 0` or `> 1` always one sub-vector and no diagnostic. -/
def searchVecNeedle (table : List Value) (rpm icn : Nat) :
    List Value → List Value × List String
  | [] => ([], [])
  | fv :: fvs =>
      let res := searchElemScan fv rpm icn 0 0 table
      let here : List Value :=
        if rpm = 1 then
          if res.length = 0 then [Value.vec []] else res.map natNum
        else [Value.vec (res.map natNum)]
      let warn : List String :=
        if rpm = 1 ∧ res.length = 0 then searchNotFoundWarn fv else []
      let (rest, warns) := searchVecNeedle table rpm icn fvs
      (here ++ rest, warn ++ warns)

/-- `builtin_search` (func.cc): needs two arguments; `returnsPerMatch`
(default 1) and the index column (default 0) are read through `toDouble` and
a C cast; then dispatches on the needle's variant.  `none` embeds the UB of
the string/vector-table helper's column access. -/
def builtin_search (args : List Value) : Option (Value × List String) :=
  if args.length < 2 then some (Value.undef, [])
  else
    let findThis := args.getD 0 Value.undef
    let searchTable := args.getD 1 Value.undef
    let rpm := if args.length > 2 then D.castUInt (Value.toDouble (args.getD 2 Value.undef)) else 1
    let icn := if args.length > 3 then D.castUInt (Value.toDouble (args.getD 3 Value.undef)) else 0
    match findThis with
    | Value.num _ =>
        some (Value.vec ((searchNumScan findThis rpm icn 0 0
          (Value.toVector searchTable)).map natNum), [])
    | Value.str s =>
        match searchTable with
        | Value.str t =>
            let (l, w) := search_string t rpm icn s
            some (Value.vec l, w)
        | _ =>
            match search_vector (Value.toVector searchTable) rpm icn s with
            | none => none
            | some (l, w) => some (Value.vec l, w)
    | Value.vec fs =>
        let (l, w) := searchVecNeedle (Value.toVector searchTable) rpm icn fs
        (some (Value.vec l, w))
    | Value.undef =>
        some (Value.undef, ["  WARNING: search: none performed on input undef"])

/-! ## Theorems -/

/-- A concrete libm instance for closed instantiations: identity-like
primitives (any instance works; the theorems are parametric in `LibM`). -/
def lmId : LibM := ⟨fun x => x, fun x => x, 355/113, 169/239, fun x => x⟩

/-- `D.lt` is irreflexive, like IEEE `<`. -/
theorem D.lt_self (d : D) : D.lt d d = false := by
  cases d <;> simp [D.lt]

/-- C9: the element accesses of `builtin_lookup` into its second argument
are NOT always within bounds: with at least two arguments and a Number
first argument, row 0 of an empty Vector table — or of a non-Vector second
argument, whose vector view is empty — is read out of bounds, so the `none`
branch of the total embedding is reached. -/
theorem lookup_empty_table_oob :
    builtin_lookup [Value.num (D.fin 1), Value.vec []] = none
  ∧ builtin_lookup [Value.num (D.fin 1), Value.num (D.fin 5)] = none :=
  ⟨rfl, rfl⟩

/-- C2 counterexample: `cross` invoked with one argument returns Undefined
but DOES emit a diagnostic, contradicting the claim that arity mismatches
are silent for every builtin. -/
theorem cross_arity_diag_cex :
    (builtin_cross [Value.num (D.fin 0)]).1 = Value.undef
  ∧ (builtin_cross [Value.num (D.fin 0)]).2 ≠ [] :=
  ⟨rfl, by decide⟩

/-- C2 amended: for `cross`, an arity mismatch (argument count ≠ 2) or a
type mismatch (an argument that is not a Vector) returns Undefined AND
emits a warning diagnostic (cross is an exception to the silent-mismatch
policy). -/
theorem cross_mismatch_diag_amended (args : List Value) :
    (args.length ≠ 2 →
      builtin_cross args =
        (Value.undef, ["WARNING: Invalid number of parameters for cross()"]))
  ∧ (∀ a b, args = [a, b] → ¬(a.isVec = true ∧ b.isVec = true) →
      builtin_cross args =
        (Value.undef, ["WARNING: Invalid type of parameters for cross()"])) := by
  constructor
  · intro h
    match args with
    | [] => rfl
    | [_] => rfl
    | [_, _] => exact absurd rfl h
    | _ :: _ :: _ :: _ => rfl
  · rintro a b rfl hnot
    simp only [builtin_cross, if_pos hnot]

/-- C2 witness: the amended theorem applied to a concrete type-mismatched
call. -/
theorem cross_mismatch_diag_witness :
    builtin_cross [Value.num (D.fin 0), Value.num (D.fin 0)] =
      (Value.undef, ["WARNING: Invalid type of parameters for cross()"]) :=
  (cross_mismatch_diag_amended [Value.num (D.fin 0), Value.num (D.fin 0)]).2
    (Value.num (D.fin 0)) (Value.num (D.fin 0)) rfl (by simp [Value.isNum, Value.isVec])

/-- The abort of `builtin_norm`'s loop characterised: it fails exactly when
some element is not a Number. -/
theorem normLoop_none_iff (l : List Value) :
    ∀ acc : D, normLoop acc l = none ↔ ∃ v ∈ l, v.isNum = false := by
  induction l with
  | nil => intro acc; simp [normLoop]
  | cons x xs ih =>
      intro acc
      cases x <;> simp [normLoop, Value.isNum, ih]

/-- C10: `norm` on the empty Vector returns the Number 0 with no diagnostic
(`sqrt` of the empty sum of squares; the libm `sqrt` is exact at 0), and
the diagnostic-plus-Undefined path is taken exactly when some element of
the Vector argument is not a Number. -/
theorem norm_empty_vector (lm : LibM) (h0 : lm.csqrt 0 = 0) :
    builtin_norm lm [Value.vec []] = (Value.num (D.fin 0), [])
  ∧ ∀ l : List Value,
      ((builtin_norm lm [Value.vec l]).2 ≠ [] ↔ ∃ v ∈ l, v.isNum = false) := by
  constructor
  · simp [builtin_norm, normLoop, csqrtD, h0]
  · intro l
    rcases hl : normLoop (D.fin 0) l with _ | s
    · simp [builtin_norm, hl]
      exact (normLoop_none_iff l (D.fin 0)).mp hl
    · have hno : ¬∃ v ∈ l, v.isNum = false := by
        rw [← normLoop_none_iff l (D.fin 0), hl]; simp
      simp [builtin_norm, hl, hno]

/-- C10 witness: the empty-vector case at a concrete libm instance. -/
theorem norm_empty_vector_witness :
    builtin_norm lmId [Value.vec []] = (Value.num (D.fin 0), []) :=
  (norm_empty_vector lmId rfl).1

/-- C7: `rands(min, max, count, seed?)` with `min == max` (IEEE equality on
the two Number arguments) returns exactly `count`-clamped-to-non-negative
copies of that exact value, and the uniform-distribution sampler is never
invoked: the result is identical under any two sampler implementations,
the non-deterministic stream is untouched, and the deterministic stream is
only reseeded (4-argument form) or untouched (3-argument form). -/
theorem rands_degenerate_range {G : Type} (seedF : Nat → G)
    (u1 u2 : D → D → G → D × G) (det less : G) (d c s : D)
    (hd : D.beq d d = true) :
    builtin_rands seedF u1 det less [Value.num d, Value.num d, Value.num c, Value.num s]
      = (Value.vec (List.replicate ((max 0 (D.castInt c)).toNat) (Value.num d)),
         seedF (D.castUInt s), less)
  ∧ builtin_rands seedF u1 det less [Value.num d, Value.num d, Value.num c, Value.num s]
      = builtin_rands seedF u2 det less [Value.num d, Value.num d, Value.num c, Value.num s]
  ∧ builtin_rands seedF u1 det less [Value.num d, Value.num d, Value.num c]
      = (Value.vec (List.replicate ((max 0 (D.castInt c)).toNat) (Value.num d)),
         det, less) := by
  refine ⟨?_, ?_, ?_⟩ <;> simp [builtin_rands, D.lt_self, hd]

/-- C7 witness: `rands(2,2,3,42)` with two different concrete samplers. -/
theorem rands_degenerate_range_witness :
    builtin_rands (fun n => n) (fun _ _ g => (D.fin 7, g + 1)) 0 0
        [Value.num (D.fin 2), Value.num (D.fin 2), Value.num (D.fin 3), Value.num (D.fin 42)]
      = (Value.vec (List.replicate 3 (Value.num (D.fin 2))), 42, 0) := by
  have h := rands_degenerate_range (G := Nat) (fun n => n)
    (fun _ _ g => (D.fin 7, g + 1)) (fun _ _ g => (D.fin 9, g + 2)) 0 0
    (D.fin 2) (D.fin 3) (D.fin 42) (by decide)
  rw [h.1]; rfl

/-- C6: two `rands` calls with identical Number arguments including the
seed produce identical results: the returned Value does not depend on the
prior state of either generator stream (the deterministic stream is
reseeded from the 4th argument before any draw). -/
theorem rands_seed_deterministic {G : Type} (seedF : Nat → G)
    (uniform : D → D → G → D × G) (det1 det2 less1 less2 : G) (a b c s : D) :
    (builtin_rands seedF uniform det1 less1
        [Value.num a, Value.num b, Value.num c, Value.num s]).1
  = (builtin_rands seedF uniform det2 less2
        [Value.num a, Value.num b, Value.num c, Value.num s]).1 := by
  simp only [builtin_rands]
  split <;> split <;> rfl

/-- C6 witness: a concrete stream model started in two different states. -/
theorem rands_seed_deterministic_witness :
    (builtin_rands (fun n => n) (fun _ _ g => (D.fin g, g + 1)) 0 100
        [Value.num (D.fin 0), Value.num (D.fin 1), Value.num (D.fin 2), Value.num (D.fin 5)]).1
  = (builtin_rands (fun n => n) (fun _ _ g => (D.fin g, g + 1)) 77 3
        [Value.num (D.fin 0), Value.num (D.fin 1), Value.num (D.fin 2), Value.num (D.fin 5)]).1 :=
  rands_seed_deterministic (fun n => n) (fun _ _ g => (D.fin g, g + 1)) 0 77 100 3
    (D.fin 0) (D.fin 1) (D.fin 2) (D.fin 5)

/-! ### C1: the min/max positional scan -/

theorem D.lt_fin (a b : ℚ) : D.lt (D.fin a) (D.fin b) = decide (a < b) := rfl

theorem D.beq_fin (a b : ℚ) : D.beq (D.fin a) (D.fin b) = decide (a = b) := rfl

theorem D.le_fin (a b : ℚ) : D.le (D.fin a) (D.fin b) = decide (a ≤ b) := by
  by_cases h : a ≤ b
  · rcases lt_or_eq_of_le h with h1 | h1 <;> simp [D.le, D.lt_fin, D.beq_fin, h, h1]
  · have h1 : ¬a < b := fun hc => h hc.le
    have h2 : ¬a = b := fun hc => h hc.le
    simp [D.le, D.lt_fin, D.beq_fin, h, h1, h2]

/-- A Number-headed argument list takes the flat-scan path of `builtin_min`. -/
theorem builtin_min_num (d : D) (rest : List Value) :
    builtin_min (Value.num d :: rest) = minScan d rest := by
  cases rest <;> rfl

/-- A Number-headed argument list takes the flat-scan path of `builtin_max`. -/
theorem builtin_max_num (d : D) (rest : List Value) :
    builtin_max (Value.num d :: rest) = maxScan d rest := by
  cases rest <;> rfl

/-- The scan aborts to Undefined whenever some later argument is not a Number. -/
theorem minScan_nonnum (l : List Value) (h : ∃ v ∈ l, v.isNum = false) :
    ∀ d : D, minScan d l = Value.undef := by
  induction l with
  | nil => simp at h
  | cons x xs ih =>
      intro d
      cases x with
      | num y =>
          rcases h with ⟨v, hv, hnum⟩
          rcases List.mem_cons.mp hv with rfl | hv2
          · simp [Value.isNum] at hnum
          · exact ih ⟨v, hv2, hnum⟩ _
      | undef => rfl
      | str s => rfl
      | vec l2 => rfl

theorem maxScan_nonnum (l : List Value) (h : ∃ v ∈ l, v.isNum = false) :
    ∀ d : D, maxScan d l = Value.undef := by
  induction l with
  | nil => simp at h
  | cons x xs ih =>
      intro d
      cases x with
      | num y =>
          rcases h with ⟨v, hv, hnum⟩
          rcases List.mem_cons.mp hv with rfl | hv2
          · simp [Value.isNum] at hnum
          · exact ih ⟨v, hv2, hnum⟩ _
      | undef => rfl
      | str s => rfl
      | vec l2 => rfl

theorem ite_lt_min (x q0 : ℚ) : (if x < q0 then x else q0) = min q0 x := by
  rcases le_or_lt q0 x with h | h
  · rw [if_neg (not_lt.mpr h), min_eq_left h]
  · rw [if_pos h, min_eq_right h.le]

theorem ite_lt_max (x q0 : ℚ) : (if q0 < x then x else q0) = max q0 x := by
  rcases le_or_lt x q0 with h | h
  · rw [if_neg (not_lt.mpr h), max_eq_left h]
  · rw [if_pos h, max_eq_right h.le]

/-- The scan over all-Number arguments computes the running minimum. -/
theorem minScan_map_fin (qs : List ℚ) : ∀ q0 : ℚ,
    minScan (D.fin q0) (qs.map fun x => Value.num (D.fin x))
      = Value.num (D.fin (qs.foldl min q0)) := by
  induction qs with
  | nil => intro q0; rfl
  | cons x xs ih =>
      intro q0
      show minScan (if D.lt (D.fin x) (D.fin q0) then D.fin x else D.fin q0) _ = _
      rw [D.lt_fin]
      simp only [decide_eq_true_eq, apply_ite (fun b => b)]
      rw [show (if x < q0 then D.fin x else D.fin q0) = D.fin (if x < q0 then x else q0) from
        (apply_ite D.fin (x < q0) x q0).symm]
      rw [ite_lt_min, ih (min q0 x)]
      rfl

theorem maxScan_map_fin (qs : List ℚ) : ∀ q0 : ℚ,
    maxScan (D.fin q0) (qs.map fun x => Value.num (D.fin x))
      = Value.num (D.fin (qs.foldl max q0)) := by
  induction qs with
  | nil => intro q0; rfl
  | cons x xs ih =>
      intro q0
      show maxScan (if D.lt (D.fin q0) (D.fin x) then D.fin x else D.fin q0) _ = _
      rw [D.lt_fin]
      simp only [decide_eq_true_eq]
      rw [show (if q0 < x then D.fin x else D.fin q0) = D.fin (if q0 < x then x else q0) from
        (apply_ite D.fin (q0 < x) x q0).symm]
      rw [ite_lt_max, ih (max q0 x)]
      rfl

theorem foldl_min_mem (l : List ℚ) : ∀ a : ℚ, l.foldl min a ∈ a :: l := by
  induction l with
  | nil => intro a; simp
  | cons x xs ih =>
      intro a
      have h := ih (min a x)
      rw [List.foldl_cons]
      rcases List.mem_cons.mp h with h1 | h1
      · rcases min_choice a x with h2 | h2
        · exact List.mem_cons.mpr (Or.inl (h1.trans h2))
        · exact List.mem_cons.mpr (Or.inr (List.mem_cons.mpr (Or.inl (h1.trans h2))))
      · exact List.mem_cons.mpr (Or.inr (List.mem_cons.mpr (Or.inr h1)))

theorem foldl_min_le (l : List ℚ) : ∀ a : ℚ, ∀ x ∈ a :: l, l.foldl min a ≤ x := by
  induction l with
  | nil =>
      intro a x hx
      rcases List.mem_cons.mp hx with h1 | h1
      · simp [h1]
      · simp at h1
  | cons y ys ih =>
      intro a x hx
      rw [List.foldl_cons]
      rcases List.mem_cons.mp hx with h1 | hx2
      · rw [h1]
        exact (ih (min a y) (min a y) (List.mem_cons_self _ _)).trans (min_le_left a y)
      rcases List.mem_cons.mp hx2 with h2 | hx3
      · rw [h2]
        exact (ih (min a y) (min a y) (List.mem_cons_self _ _)).trans (min_le_right a y)
      · exact ih (min a y) x (List.mem_cons_of_mem _ hx3)

theorem foldl_max_mem (l : List ℚ) : ∀ a : ℚ, l.foldl max a ∈ a :: l := by
  induction l with
  | nil => intro a; simp
  | cons x xs ih =>
      intro a
      have h := ih (max a x)
      rw [List.foldl_cons]
      rcases List.mem_cons.mp h with h1 | h1
      · rcases max_choice a x with h2 | h2
        · exact List.mem_cons.mpr (Or.inl (h1.trans h2))
        · exact List.mem_cons.mpr (Or.inr (List.mem_cons.mpr (Or.inl (h1.trans h2))))
      · exact List.mem_cons.mpr (Or.inr (List.mem_cons.mpr (Or.inr h1)))

theorem foldl_max_le (l : List ℚ) : ∀ a : ℚ, ∀ x ∈ a :: l, x ≤ l.foldl max a := by
  induction l with
  | nil =>
      intro a x hx
      rcases List.mem_cons.mp hx with h1 | h1
      · simp [h1]
      · simp at h1
  | cons y ys ih =>
      intro a x hx
      rw [List.foldl_cons]
      rcases List.mem_cons.mp hx with h1 | hx2
      · rw [h1]
        exact (le_max_left a y).trans
          (ih (max a y) (max a y) (List.mem_cons_self _ _))
      rcases List.mem_cons.mp hx2 with h2 | hx3
      · rw [h2]
        exact (le_max_right a y).trans
          (ih (max a y) (max a y) (List.mem_cons_self _ _))
      · exact ih (max a y) x (List.mem_cons_of_mem _ hx3)

/-- C1 counterexample: `max(1, 2, "x", 5)` is Undefined, not 2 — hitting a
non-Number argument jumps to `quit` and discards the best value seen. -/
theorem max_stops_undef_cex :
    builtin_max [Value.num (D.fin 1), Value.num (D.fin 2), Value.str ['x'],
        Value.num (D.fin 5)] = Value.undef
  ∧ Value.undef ≠ Value.num (D.fin 2) :=
  ⟨rfl, fun h => Value.noConfusion h⟩

/-- C1 amended: for `min`/`max` with a Number first argument, the
left-to-right scan stops at the first non-Number argument and the whole
call returns Undefined (not the best value seen so far); when every
positional argument is a Number, the true minimum/maximum of all the
arguments is returned. -/
theorem min_max_scan_amended :
    (∀ (d : D) (rest : List Value), (∃ v ∈ rest, v.isNum = false) →
        builtin_min (Value.num d :: rest) = Value.undef
      ∧ builtin_max (Value.num d :: rest) = Value.undef)
  ∧ (∀ (q0 : ℚ) (qs : List ℚ),
        builtin_min (Value.num (D.fin q0) :: qs.map fun x => Value.num (D.fin x))
          = Value.num (D.fin (qs.foldl min q0))
      ∧ (qs.foldl min q0 ∈ q0 :: qs ∧ ∀ x ∈ q0 :: qs, qs.foldl min q0 ≤ x)
      ∧ builtin_max (Value.num (D.fin q0) :: qs.map fun x => Value.num (D.fin x))
          = Value.num (D.fin (qs.foldl max q0))
      ∧ (qs.foldl max q0 ∈ q0 :: qs ∧ ∀ x ∈ q0 :: qs, x ≤ qs.foldl max q0)) := by
  constructor
  · intro d rest h
    rw [builtin_min_num, builtin_max_num]
    exact ⟨minScan_nonnum rest h d, maxScan_nonnum rest h d⟩
  · intro q0 qs
    rw [builtin_min_num, builtin_max_num, minScan_map_fin, maxScan_map_fin]
    exact ⟨rfl, ⟨foldl_min_mem qs q0, foldl_min_le qs q0⟩, rfl,
      ⟨foldl_max_mem qs q0, foldl_max_le qs q0⟩⟩

/-- C1 witness: the abort case at a concrete call. -/
theorem min_max_scan_amended_witness :
    builtin_min [Value.num (D.fin 1), Value.str ['x']] = Value.undef :=
  (min_max_scan_amended.1 (D.fin 1) [Value.str ['x']]
    ⟨Value.str ['x'], by simp, rfl⟩).1

/-! ### C5: trig domain reduction -/

/-- Below the huge threshold, the prologue reduces by `x - 360*floor(x/360)`
(an argument already in `[0,360)` is kept unchanged, which is the same
value). -/
theorem trigReduce_below (x : ℚ) (h : |x| < TRIG_HUGE_VAL) :
    trigReduce (D.fin x) = some (x - 360 * ((⌊x / 360⌋ : ℤ) : ℚ)) := by
  by_cases h1 : 0 ≤ x ∧ x < 360
  · have hfl : ⌊x / 360⌋ = 0 := by
      rw [Int.floor_eq_zero_iff]
      constructor
      · exact div_nonneg h1.1 (by norm_num)
      · rw [div_lt_one (by norm_num)]
        exact h1.2
    simp [trigReduce, h1, hfl]
  · have h2 : -TRIG_HUGE_VAL < x ∧ x < TRIG_HUGE_VAL := abs_lt.mp h
    simp [trigReduce, h1, h2]

/-- The reduced argument lies in `[0, 360)`. -/
theorem trigReduce_mem (x : ℚ) :
    0 ≤ x - 360 * ((⌊x / 360⌋ : ℤ) : ℚ) ∧ x - 360 * ((⌊x / 360⌋ : ℤ) : ℚ) < 360 := by
  have hq : x - 360 * ((⌊x / 360⌋ : ℤ) : ℚ) = 360 * Int.fract (x / 360) := by
    rw [Int.fract]
    ring
  rw [hq]
  constructor
  · have := Int.fract_nonneg (x / 360)
    positivity
  · have h1 := Int.fract_lt_one (x / 360)
    nlinarith [h1]

/-- The reduction is 360-periodic. -/
theorem trigReduce_period (x : ℚ) (k : ℤ) :
    (x + 360 * (k : ℚ)) - 360 * ((⌊(x + 360 * (k : ℚ)) / 360⌋ : ℤ) : ℚ)
      = x - 360 * ((⌊x / 360⌋ : ℤ) : ℚ) := by
  have hdiv : (x + 360 * (k : ℚ)) / 360 = x / 360 + (k : ℚ) := by
    field_simp
    ring
  rw [hdiv, Int.floor_add_int]
  push_cast
  ring

/-- At or beyond the huge threshold the prologue gives up (NaN). -/
theorem trigReduce_huge (x : ℚ) (h : TRIG_HUGE_VAL ≤ |x|) :
    trigReduce (D.fin x) = none := by
  have hT : (360 : ℚ) < TRIG_HUGE_VAL := by norm_num [TRIG_HUGE_VAL]
  have h1 : ¬(0 ≤ x ∧ x < 360) := by
    rintro ⟨ha, hb⟩
    rw [abs_of_nonneg ha] at h
    linarith
  have h2 : ¬(-TRIG_HUGE_VAL < x ∧ x < TRIG_HUGE_VAL) := by
    rintro hc
    exact absurd (abs_lt.mpr hc) (not_lt.mpr h)
  simp [trigReduce, h1, h2]

/-- C5: for `sin`/`cos` on a Number argument, an input at or beyond the
huge-value threshold (`360 * 2^52` degrees in magnitude) yields NaN; a
finite input below the threshold is first reduced to `[0,360)` via
`x - 360*floor(x/360)` and then fed to the octant epilogue, so both
functions are 360-periodic below the threshold. -/
theorem trig_reduction_periodic (lm : LibM) :
    (∀ x : ℚ, TRIG_HUGE_VAL ≤ |x| →
        builtin_sin lm [Value.num (D.fin x)] = Value.num D.nan
      ∧ builtin_cos lm [Value.num (D.fin x)] = Value.num D.nan)
  ∧ (∀ x : ℚ, |x| < TRIG_HUGE_VAL →
        builtin_sin lm [Value.num (D.fin x)]
          = Value.num (D.fin (sinPost lm (x - 360 * ((⌊x / 360⌋ : ℤ) : ℚ))))
      ∧ builtin_cos lm [Value.num (D.fin x)]
          = Value.num (D.fin (cosPost lm (x - 360 * ((⌊x / 360⌋ : ℤ) : ℚ))))
      ∧ 0 ≤ x - 360 * ((⌊x / 360⌋ : ℤ) : ℚ)
      ∧ x - 360 * ((⌊x / 360⌋ : ℤ) : ℚ) < 360)
  ∧ (∀ (x : ℚ) (k : ℤ), |x| < TRIG_HUGE_VAL → |x + 360 * (k : ℚ)| < TRIG_HUGE_VAL →
        builtin_sin lm [Value.num (D.fin (x + 360 * (k : ℚ)))]
          = builtin_sin lm [Value.num (D.fin x)]
      ∧ builtin_cos lm [Value.num (D.fin (x + 360 * (k : ℚ)))]
          = builtin_cos lm [Value.num (D.fin x)]) := by
  refine ⟨fun x h => ?_, fun x h => ?_, fun x k h hk => ?_⟩
  · simp [builtin_sin, builtin_cos, trigReduce_huge x h]
  · refine ⟨?_, ?_, (trigReduce_mem x).1, (trigReduce_mem x).2⟩ <;>
      simp [builtin_sin, builtin_cos, trigReduce_below x h]
  · constructor <;>
      simp [builtin_sin, builtin_cos, trigReduce_below x h,
        trigReduce_below _ hk, trigReduce_period x k]

/-- C5 witness: periodicity at `400 = 40 + 360` and NaN at the threshold,
for a concrete libm instance. -/
theorem trig_reduction_periodic_witness :
    builtin_sin lmId [Value.num (D.fin 400)] = builtin_sin lmId [Value.num (D.fin 40)]
  ∧ builtin_sin lmId [Value.num (D.fin (360 * 2 ^ 52))] = Value.num D.nan := by
  constructor
  · have h := ((trig_reduction_periodic lmId).2.2 40 1
      (by rw [show |(40 : ℚ)| = 40 from abs_of_nonneg (by norm_num)]
          norm_num [TRIG_HUGE_VAL])
      (by push_cast
          rw [show |(40 : ℚ) + 360 * 1| = 400 by norm_num [abs_of_nonneg]]
          norm_num [TRIG_HUGE_VAL])).1
    norm_num at h
    exact h
  · exact ((trig_reduction_periodic lmId).1 (360 * 2 ^ 52)
      (by rw [show |(360 : ℚ) * 2 ^ 52| = 360 * 2 ^ 52 from abs_of_nonneg (by positivity)]
          norm_num [TRIG_HUGE_VAL])).1

/-! ### C8 / C4: lookup -/

/-- A well-formed lookup table row: `[position, value]`, both Numbers. -/
def mkRow (r : ℚ × ℚ) : Value :=
  Value.vec [Value.num (D.fin r.1), Value.num (D.fin r.2)]

/-- The body of `builtin_lookup` past the argument checks, named so proofs
can unfold the builtin once and for all (`builtin_lookup_cons`). -/
def lookupCore (p : D) (r0 : Value) (rest : List Value) : Option Value :=
  if (Value.toVector r0).length < 2 then some Value.undef
  else
    match Value.getVec2 r0 with
    | none => some Value.undef
    | some (lp0, lv0) =>
        match Value.getVec2 r0 with
        | none => some Value.undef
        | some (hp0, hv0) =>
            let st := lookupScan p (lp0, lv0, hp0, hv0) rest
            let (lp, lv, hp, hv) := st
            if D.le p lp then some (Value.num hv)
            else if D.le hp p then some (Value.num lv)
            else
              let f := D.div (D.sub p lp) (D.sub hp lp)
              some (Value.num (D.add (D.mul hv f) (D.mul lv (D.sub (D.fin 1) f))))

theorem builtin_lookup_cons (p : D) (r0 : Value) (rest : List Value) :
    builtin_lookup [Value.num p, Value.vec (r0 :: rest)] = lookupCore p r0 rest := rfl

/-- A row that does not decompose as a numeric pair leaves the scan state
unchanged. -/
theorem lookupScanRow_skip (p : D) (st : D × D × D × D) (row : Value)
    (h : Value.getVec2 row = none) : lookupScanRow p st row = st := by
  simp [lookupScanRow, h]

/-- The bracket scan ignores malformed rows entirely. -/
theorem lookupScan_filter (p : D) (rows : List Value) : ∀ st : D × D × D × D,
    lookupScan p st rows
      = lookupScan p st (rows.filter fun r => (Value.getVec2 r).isSome) := by
  induction rows with
  | nil => intro st; rfl
  | cons r rs ih =>
      intro st
      rw [List.filter_cons]
      rcases hr : Value.getVec2 r with _ | pr
      · simp only [hr, Option.isSome_none, Bool.false_eq_true, if_false]
        rw [show lookupScan p st (r :: rs) = lookupScan p (lookupScanRow p st r) rs from rfl,
          lookupScanRow_skip p st r hr]
        exact ih st
      · simp only [hr, Option.isSome_some, if_true]
        rw [show lookupScan p st (r :: rs) = lookupScan p (lookupScanRow p st r) rs from rfl,
          show lookupScan p st (r :: List.filter (fun r => (Value.getVec2 r).isSome) rs)
            = lookupScan p (lookupScanRow p st r)
                (List.filter (fun r => (Value.getVec2 r).isSome) rs) from rfl]
        exact ih _

/-- C8 counterexample: a table whose third row is malformed (a bare Number)
is not rejected — the scan skips the bad row and the call clamps to the
highest well-formed position's value, 20, not Undefined. -/
theorem lookup_malformed_row_cex :
    builtin_lookup [Value.num (D.fin 5),
        Value.vec [mkRow (0, 10), mkRow (1, 20), Value.num (D.fin 99)]]
      = some (Value.num (D.fin 20))
  ∧ (some (Value.num (D.fin 20)) : Option Value) ≠ some Value.undef :=
  ⟨rfl, fun h => Value.noConfusion (Option.some.inj h)⟩

/-- C8 amended: `lookup` returns Undefined when the table's FIRST row is not
a 2-element vector of Numbers; malformed rows after the first are silently
skipped by the bracket scan (the result is as if they were filtered out),
not turned into Undefined. -/
theorem lookup_malformed_amended :
    (∀ (p : D) (r0 : Value) (rest : List Value), Value.getVec2 r0 = none →
        builtin_lookup [Value.num p, Value.vec (r0 :: rest)] = some Value.undef)
  ∧ (∀ (p : D) (r0 : Value) (rest : List Value),
        builtin_lookup [Value.num p, Value.vec (r0 :: rest)]
          = builtin_lookup [Value.num p, Value.vec
              (r0 :: rest.filter fun r => (Value.getVec2 r).isSome)]) := by
  constructor
  · intro p r0 rest h
    rw [builtin_lookup_cons]
    unfold lookupCore
    by_cases hl : (Value.toVector r0).length < 2
    · rw [if_pos hl]
    · rw [if_neg hl, h]
  · intro p r0 rest
    rw [builtin_lookup_cons, builtin_lookup_cons]
    unfold lookupCore
    by_cases hl : (Value.toVector r0).length < 2
    · rw [if_pos hl, if_pos hl]
    · rw [if_neg hl, if_neg hl]
      rcases h0 : Value.getVec2 r0 with _ | pr
      · rfl
      · rcases pr with ⟨lp0, lv0⟩
        dsimp only
        rw [← lookupScan_filter]

/-- C8 witness: the skip behaviour applied at the counterexample's input. -/
theorem lookup_malformed_amended_witness :
    builtin_lookup [Value.num (D.fin 7), Value.vec [Value.str ['a'], mkRow (0, 0)]]
      = some Value.undef :=
  lookup_malformed_amended.1 (D.fin 7) (Value.str ['a']) [mkRow (0, 0)] rfl

theorem D.add_fin (a b : ℚ) : D.add (D.fin a) (D.fin b) = D.fin (a + b) := rfl

theorem D.mul_fin (a b : ℚ) : D.mul (D.fin a) (D.fin b) = D.fin (a * b) := rfl

theorem D.sub_fin (a b : ℚ) : D.sub (D.fin a) (D.fin b) = D.fin (a - b) := by
  simp [D.sub, D.neg, D.add, sub_eq_add_neg]

theorem D.div_fin (a b : ℚ) (h : b ≠ 0) : D.div (D.fin a) (D.fin b) = D.fin (a / b) := by
  simp [D.div, h]

/-- The bracket scan restricted to well-formed numeric rows, in pure
rational form (the shape `((low_p, low_v), (high_p, high_v))`). -/
def scanQ (p : ℚ) : ((ℚ × ℚ) × (ℚ × ℚ)) → List (ℚ × ℚ) → ((ℚ × ℚ) × (ℚ × ℚ))
  | st, [] => st
  | st, t :: rs =>
      scanQ p
        ((if t.1 ≤ p ∧ (st.1.1 < t.1 ∨ p < st.1.1) then t else st.1),
         (if p ≤ t.1 ∧ (t.1 < st.2.1 ∨ st.2.1 < p) then t else st.2)) rs

theorem lookupScanRow_mkRow (p : ℚ) (lo hi t : ℚ × ℚ) :
    lookupScanRow (D.fin p) (D.fin lo.1, D.fin lo.2, D.fin hi.1, D.fin hi.2) (mkRow t)
      = (D.fin (if t.1 ≤ p ∧ (lo.1 < t.1 ∨ p < lo.1) then t else lo).1,
         D.fin (if t.1 ≤ p ∧ (lo.1 < t.1 ∨ p < lo.1) then t else lo).2,
         D.fin (if p ≤ t.1 ∧ (t.1 < hi.1 ∨ hi.1 < p) then t else hi).1,
         D.fin (if p ≤ t.1 ∧ (t.1 < hi.1 ∨ hi.1 < p) then t else hi).2) := by
  simp only [lookupScanRow, mkRow, Value.getVec2]
  simp only [D.le_fin, D.lt_fin, Bool.and_eq_true, Bool.or_eq_true, decide_eq_true_eq]
  by_cases h1 : t.1 ≤ p ∧ (lo.1 < t.1 ∨ p < lo.1) <;>
    by_cases h2 : p ≤ t.1 ∧ (t.1 < hi.1 ∨ hi.1 < p) <;>
      simp [h1, h2]

/-- On a table of well-formed rows, the D-level scan computes `scanQ`. -/
theorem lookupScan_mkRow (p : ℚ) (rs : List (ℚ × ℚ)) : ∀ lo hi : ℚ × ℚ,
    lookupScan (D.fin p) (D.fin lo.1, D.fin lo.2, D.fin hi.1, D.fin hi.2) (rs.map mkRow)
      = (D.fin (scanQ p (lo, hi) rs).1.1, D.fin (scanQ p (lo, hi) rs).1.2,
         D.fin (scanQ p (lo, hi) rs).2.1, D.fin (scanQ p (lo, hi) rs).2.2) := by
  induction rs with
  | nil => intro lo hi; rfl
  | cons t ts ih =>
      intro lo hi
      rw [List.map_cons]
      rw [show lookupScan (D.fin p)
            (D.fin lo.1, D.fin lo.2, D.fin hi.1, D.fin hi.2) (mkRow t :: ts.map mkRow)
          = lookupScan (D.fin p)
              (lookupScanRow (D.fin p)
                (D.fin lo.1, D.fin lo.2, D.fin hi.1, D.fin hi.2) (mkRow t))
              (ts.map mkRow) from rfl]
      rw [lookupScanRow_mkRow]
      rw [show scanQ p (lo, hi) (t :: ts)
          = scanQ p ((if t.1 ≤ p ∧ (lo.1 < t.1 ∨ p < lo.1) then t else lo),
                     (if p ≤ t.1 ∧ (t.1 < hi.1 ∨ hi.1 < p) then t else hi)) ts from rfl]
      exact ih _ _

/-- The clamp/interpolate epilogue of `builtin_lookup` in pure rational
form, on the final scan state. -/
def lookupFinal (p : ℚ) (st : (ℚ × ℚ) × (ℚ × ℚ)) : ℚ :=
  if p ≤ st.1.1 then st.2.2
  else if st.2.1 ≤ p then st.1.2
  else st.2.2 * ((p - st.1.1) / (st.2.1 - st.1.1))
       + st.1.2 * (1 - (p - st.1.1) / (st.2.1 - st.1.1))

/-- `builtin_lookup` on a well-formed table computes `lookupFinal ∘ scanQ`. -/
theorem lookup_eval (p : ℚ) (r0 : ℚ × ℚ) (rest : List (ℚ × ℚ)) :
    builtin_lookup [Value.num (D.fin p), Value.vec ((r0 :: rest).map mkRow)]
      = some (Value.num (D.fin (lookupFinal p (scanQ p (r0, r0) rest)))) := by
  rw [List.map_cons, builtin_lookup_cons]
  unfold lookupCore
  rw [if_neg (by simp [mkRow, Value.toVector])]
  rw [show Value.getVec2 (mkRow r0) = some (D.fin r0.1, D.fin r0.2) from rfl]
  dsimp only
  rw [lookupScan_mkRow p rest r0 r0]
  rcases hst : scanQ p (r0, r0) rest with ⟨⟨lp, lv⟩, hp, hv⟩
  dsimp only
  rw [D.le_fin, D.le_fin]
  unfold lookupFinal
  dsimp only
  by_cases h1 : p ≤ lp
  · simp [h1]
  · by_cases h2 : hp ≤ p
    · simp [h1, h2]
    · have hlp : lp < p := not_le.mp h1
      have hph : p < hp := not_le.mp h2
      have hne : hp - lp ≠ 0 := sub_ne_zero.mpr (ne_of_gt (hlp.trans hph))
      simp [h1, h2, D.sub_fin, D.div_fin _ _ hne, D.mul_fin, D.add_fin]

/-- Invariant of the low bracket over the processed prefix `S`: once some
row position is ≤ the query, the bracket holds a row of `S` with the
largest such position; before that it still holds the seed row. -/
def InvLow (p : ℚ) (S : List (ℚ × ℚ)) (r0 lo : ℚ × ℚ) : Prop :=
  ((∃ r ∈ S, r.1 ≤ p) → lo ∈ S ∧ lo.1 ≤ p ∧ ∀ r ∈ S, r.1 ≤ p → r.1 ≤ lo.1)
  ∧ ((∀ r ∈ S, p < r.1) → lo = r0)

/-- Invariant of the high bracket, mirror image of `InvLow`. -/
def InvHigh (p : ℚ) (S : List (ℚ × ℚ)) (r0 hi : ℚ × ℚ) : Prop :=
  ((∃ r ∈ S, p ≤ r.1) → hi ∈ S ∧ p ≤ hi.1 ∧ ∀ r ∈ S, p ≤ r.1 → hi.1 ≤ r.1)
  ∧ ((∀ r ∈ S, r.1 < p) → hi = r0)

theorem invLow_step (p : ℚ) (S : List (ℚ × ℚ)) (r0 lo t : ℚ × ℚ)
    (hr0 : r0 ∈ S) (h : InvLow p S r0 lo) :
    InvLow p (S ++ [t]) r0 (if t.1 ≤ p ∧ (lo.1 < t.1 ∨ p < lo.1) then t else lo) := by
  classical
  by_cases hE : ∃ r ∈ S, r.1 ≤ p
  · obtain ⟨hmem, hle, hmax⟩ := h.1 hE
    constructor
    · intro _
      by_cases hc : t.1 ≤ p ∧ (lo.1 < t.1 ∨ p < lo.1)
      · rw [if_pos hc]
        refine ⟨List.mem_append.mpr (Or.inr (List.mem_singleton.mpr rfl)), hc.1, ?_⟩
        intro r hrS hrle
        rcases List.mem_append.mp hrS with h1 | h1
        · rcases hc.2 with h2 | h2
          · exact (hmax r h1 hrle).trans h2.le
          · exact absurd h2 (not_lt.mpr hle)
        · obtain rfl := List.mem_singleton.mp h1
          exact le_refl _
      · rw [if_neg hc]
        refine ⟨List.mem_append.mpr (Or.inl hmem), hle, ?_⟩
        intro r hrS hrle
        rcases List.mem_append.mp hrS with h1 | h1
        · exact hmax r h1 hrle
        · obtain rfl := List.mem_singleton.mp h1
          have h3 : ¬(lo.1 < r.1 ∨ p < lo.1) := fun hor => hc ⟨hrle, hor⟩
          exact not_lt.mp (fun hlt => h3 (Or.inl hlt))
    · intro hall
      obtain ⟨r, hrS, hrle⟩ := hE
      exact absurd hrle (not_le.mpr (hall r (List.mem_append.mpr (Or.inl hrS))))
  · have hgt : ∀ r ∈ S, p < r.1 :=
      fun r hr => not_le.mp fun hle => hE ⟨r, hr, hle⟩
    have hlo : lo = r0 := h.2 hgt
    by_cases ht : t.1 ≤ p
    · have hc : t.1 ≤ p ∧ (lo.1 < t.1 ∨ p < lo.1) :=
        ⟨ht, Or.inr (by rw [hlo]; exact hgt r0 hr0)⟩
      rw [if_pos hc]
      constructor
      · intro _
        refine ⟨List.mem_append.mpr (Or.inr (List.mem_singleton.mpr rfl)), ht, ?_⟩
        intro r hrS hrle
        rcases List.mem_append.mp hrS with h1 | h1
        · exact absurd hrle (not_le.mpr (hgt r h1))
        · obtain rfl := List.mem_singleton.mp h1
          exact le_refl _
      · intro hall
        exact absurd ht (not_le.mpr
          (hall t (List.mem_append.mpr (Or.inr (List.mem_singleton.mpr rfl)))))
    · have hc : ¬(t.1 ≤ p ∧ (lo.1 < t.1 ∨ p < lo.1)) := fun hcc => ht hcc.1
      rw [if_neg hc]
      constructor
      · intro hE2
        obtain ⟨r, hrS, hrle⟩ := hE2
        rcases List.mem_append.mp hrS with h1 | h1
        · exact absurd hrle (not_le.mpr (hgt r h1))
        · obtain rfl := List.mem_singleton.mp h1
          exact absurd hrle ht
      · intro _
        exact hlo

theorem invHigh_step (p : ℚ) (S : List (ℚ × ℚ)) (r0 hi t : ℚ × ℚ)
    (hr0 : r0 ∈ S) (h : InvHigh p S r0 hi) :
    InvHigh p (S ++ [t]) r0 (if p ≤ t.1 ∧ (t.1 < hi.1 ∨ hi.1 < p) then t else hi) := by
  classical
  by_cases hE : ∃ r ∈ S, p ≤ r.1
  · obtain ⟨hmem, hle, hmin⟩ := h.1 hE
    constructor
    · intro _
      by_cases hc : p ≤ t.1 ∧ (t.1 < hi.1 ∨ hi.1 < p)
      · rw [if_pos hc]
        refine ⟨List.mem_append.mpr (Or.inr (List.mem_singleton.mpr rfl)), hc.1, ?_⟩
        intro r hrS hrle
        rcases List.mem_append.mp hrS with h1 | h1
        · rcases hc.2 with h2 | h2
          · exact h2.le.trans (hmin r h1 hrle)
          · exact absurd h2 (not_lt.mpr hle)
        · obtain rfl := List.mem_singleton.mp h1
          exact le_refl _
      · rw [if_neg hc]
        refine ⟨List.mem_append.mpr (Or.inl hmem), hle, ?_⟩
        intro r hrS hrle
        rcases List.mem_append.mp hrS with h1 | h1
        · exact hmin r h1 hrle
        · obtain rfl := List.mem_singleton.mp h1
          have h3 : ¬(r.1 < hi.1 ∨ hi.1 < p) := fun hor => hc ⟨hrle, hor⟩
          exact not_lt.mp (fun hlt => h3 (Or.inl hlt))
    · intro hall
      obtain ⟨r, hrS, hrle⟩ := hE
      exact absurd hrle (not_le.mpr (hall r (List.mem_append.mpr (Or.inl hrS))))
  · have hgt : ∀ r ∈ S, r.1 < p :=
      fun r hr => not_le.mp fun hle => hE ⟨r, hr, hle⟩
    have hhi : hi = r0 := h.2 hgt
    by_cases ht : p ≤ t.1
    · have hc : p ≤ t.1 ∧ (t.1 < hi.1 ∨ hi.1 < p) :=
        ⟨ht, Or.inr (by rw [hhi]; exact hgt r0 hr0)⟩
      rw [if_pos hc]
      constructor
      · intro _
        refine ⟨List.mem_append.mpr (Or.inr (List.mem_singleton.mpr rfl)), ht, ?_⟩
        intro r hrS hrle
        rcases List.mem_append.mp hrS with h1 | h1
        · exact absurd hrle (not_le.mpr (hgt r h1))
        · obtain rfl := List.mem_singleton.mp h1
          exact le_refl _
      · intro hall
        exact absurd ht (not_le.mpr
          (hall t (List.mem_append.mpr (Or.inr (List.mem_singleton.mpr rfl)))))
    · have hc : ¬(p ≤ t.1 ∧ (t.1 < hi.1 ∨ hi.1 < p)) := fun hcc => ht hcc.1
      rw [if_neg hc]
      constructor
      · intro hE2
        obtain ⟨r, hrS, hrle⟩ := hE2
        rcases List.mem_append.mp hrS with h1 | h1
        · exact absurd hrle (not_le.mpr (hgt r h1))
        · obtain rfl := List.mem_singleton.mp h1
          exact absurd hrle ht
      · intro _
        exact hhi

/-- Both invariants are preserved by the whole scan. -/
theorem scanQ_inv (p : ℚ) (rs : List (ℚ × ℚ)) : ∀ (S : List (ℚ × ℚ)) (r0 lo hi : ℚ × ℚ),
    r0 ∈ S → InvLow p S r0 lo → InvHigh p S r0 hi →
    InvLow p (S ++ rs) r0 (scanQ p (lo, hi) rs).1
  ∧ InvHigh p (S ++ rs) r0 (scanQ p (lo, hi) rs).2 := by
  induction rs with
  | nil =>
      intro S r0 lo hi h0 hL hH
      simpa using ⟨hL, hH⟩
  | cons t ts ih =>
      intro S r0 lo hi h0 hL hH
      have hstep := ih (S ++ [t]) r0
        (if t.1 ≤ p ∧ (lo.1 < t.1 ∨ p < lo.1) then t else lo)
        (if p ≤ t.1 ∧ (t.1 < hi.1 ∨ hi.1 < p) then t else hi)
        (List.mem_append.mpr (Or.inl h0))
        (invLow_step p S r0 lo t h0 hL) (invHigh_step p S r0 hi t h0 hH)
      rw [show S ++ t :: ts = (S ++ [t]) ++ ts by simp]
      exact hstep

theorem invLow_init (p : ℚ) (r0 : ℚ × ℚ) : InvLow p [r0] r0 r0 := by
  constructor
  · rintro ⟨r, hr, hle⟩
    obtain rfl := List.mem_singleton.mp hr
    exact ⟨List.mem_singleton.mpr rfl, hle, fun s hs hsle => by
      obtain rfl := List.mem_singleton.mp hs; exact le_refl _⟩
  · intro _; rfl

theorem invHigh_init (p : ℚ) (r0 : ℚ × ℚ) : InvHigh p [r0] r0 r0 := by
  constructor
  · rintro ⟨r, hr, hle⟩
    obtain rfl := List.mem_singleton.mp hr
    exact ⟨List.mem_singleton.mpr rfl, hle, fun s hs hsle => by
      obtain rfl := List.mem_singleton.mp hs; exact le_refl _⟩
  · intro _; rfl

/-- Rows with pairwise-distinct positions are determined by their position. -/
theorem pairwise_fst_inj {l : List (ℚ × ℚ)}
    (h : l.Pairwise fun a b => a.1 ≠ b.1) :
    ∀ a ∈ l, ∀ b ∈ l, a.1 = b.1 → a = b := by
  induction l with
  | nil => intro a ha; simp at ha
  | cons x xs ih =>
      rw [List.pairwise_cons] at h
      intro a ha b hb heq
      rcases List.mem_cons.mp ha with h1 | h1 <;> rcases List.mem_cons.mp hb with h2 | h2
      · rw [h1, h2]
      · rw [h1] at heq
        exact absurd heq (h.1 b h2)
      · rw [h2] at heq
        exact absurd heq.symm (h.1 a h1)
      · exact ih h.2 a h1 b h2 heq

theorem lookupFinal_low (p : ℚ) (lo hi : ℚ × ℚ) (h : p ≤ lo.1) :
    lookupFinal p (lo, hi) = hi.2 := by
  simp [lookupFinal, h]

theorem lookupFinal_high (p : ℚ) (lo hi : ℚ × ℚ) (h1 : ¬p ≤ lo.1) (h2 : hi.1 ≤ p) :
    lookupFinal p (lo, hi) = lo.2 := by
  simp [lookupFinal, h1, h2]

theorem lookupFinal_mid (p : ℚ) (lo hi : ℚ × ℚ) (h1 : ¬p ≤ lo.1) (h2 : ¬hi.1 ≤ p) :
    lookupFinal p (lo, hi)
      = hi.2 * ((p - lo.1) / (hi.1 - lo.1)) + lo.2 * (1 - (p - lo.1) / (hi.1 - lo.1)) := by
  simp [lookupFinal, h1, h2]

/-- C4: on a non-empty table of 2-element Number rows with pairwise-distinct
positions (in any order), `lookup` is exact at every table position, clamps
to the value at the lowest position for queries at or below it, clamps to
the value at the highest position for queries at or above it, and between
two adjacent bracketing rows returns `high_v * f + low_v * (1 - f)` with
`f = (p - low_p) / (high_p - low_p)`. -/
theorem lookup_interpolation_correct (p : ℚ) (r0 : ℚ × ℚ) (rest : List (ℚ × ℚ))
    (hdist : (r0 :: rest).Pairwise fun a b => a.1 ≠ b.1) :
    (∀ r ∈ r0 :: rest, r.1 = p →
        builtin_lookup [Value.num (D.fin p), Value.vec ((r0 :: rest).map mkRow)]
          = some (Value.num (D.fin r.2)))
  ∧ (∀ r ∈ r0 :: rest, (∀ s ∈ r0 :: rest, r.1 ≤ s.1) → p ≤ r.1 →
        builtin_lookup [Value.num (D.fin p), Value.vec ((r0 :: rest).map mkRow)]
          = some (Value.num (D.fin r.2)))
  ∧ (∀ r ∈ r0 :: rest, (∀ s ∈ r0 :: rest, s.1 ≤ r.1) → r.1 ≤ p →
        builtin_lookup [Value.num (D.fin p), Value.vec ((r0 :: rest).map mkRow)]
          = some (Value.num (D.fin r.2)))
  ∧ (∀ a b, a ∈ r0 :: rest → b ∈ r0 :: rest → a.1 < p → p < b.1 →
        (∀ s ∈ r0 :: rest, s.1 ≤ a.1 ∨ b.1 ≤ s.1) →
        builtin_lookup [Value.num (D.fin p), Value.vec ((r0 :: rest).map mkRow)]
          = some (Value.num (D.fin
              (b.2 * ((p - a.1) / (b.1 - a.1))
                + a.2 * (1 - (p - a.1) / (b.1 - a.1)))))) := by
  classical
  have heval := lookup_eval p r0 rest
  obtain ⟨hL, hH⟩ := scanQ_inv p rest [r0] r0 r0 r0 (List.mem_singleton.mpr rfl)
    (invLow_init p r0) (invHigh_init p r0)
  rw [show ([r0] ++ rest) = r0 :: rest from rfl] at hL hH
  set lo := (scanQ p (r0, r0) rest).1 with hlodef
  set hi := (scanQ p (r0, r0) rest).2 with hhidef
  have hpair : scanQ p (r0, r0) rest = (lo, hi) := rfl
  rw [hpair] at heval
  have hloS : lo ∈ r0 :: rest := by
    by_cases hE : ∃ s ∈ r0 :: rest, s.1 ≤ p
    · exact (hL.1 hE).1
    · rw [hL.2 (fun s hs => not_le.mp fun hle => hE ⟨s, hs, hle⟩)]
      exact List.mem_cons_self _ _
  have hhiS : hi ∈ r0 :: rest := by
    by_cases hE : ∃ s ∈ r0 :: rest, p ≤ s.1
    · exact (hH.1 hE).1
    · rw [hH.2 (fun s hs => not_le.mp fun hle => hE ⟨s, hs, hle⟩)]
      exact List.mem_cons_self _ _
  refine ⟨?_, ?_, ?_, ?_⟩
  · -- exact at a table position
    intro r hr hrp
    obtain ⟨hloS2, hlole, hlomax⟩ := hL.1 ⟨r, hr, hrp.le⟩
    have h1 : p ≤ lo.1 := hrp ▸ hlomax r hr hrp.le
    obtain ⟨hhiS2, hhile, hhimin⟩ := hH.1 ⟨r, hr, hrp.ge⟩
    have h2 : hi.1 = r.1 := (le_antisymm (hhimin r hr hrp.ge) (hrp ▸ hhile))
    have h3 : hi = r := pairwise_fst_inj hdist hi hhiS2 r hr h2
    rw [heval, lookupFinal_low p lo hi h1, h3]
  · -- clamp below the lowest position
    intro r hr hmin hpr
    have h1 : p ≤ lo.1 := hpr.trans (hmin lo hloS)
    obtain ⟨hhiS2, hhile, hhimin⟩ := hH.1 ⟨r, hr, hpr⟩
    have h2 : hi = r := pairwise_fst_inj hdist hi hhiS2 r hr
      (le_antisymm (hhimin r hr hpr) (hmin hi hhiS2))
    rw [heval, lookupFinal_low p lo hi h1, h2]
  · -- clamp above the highest position
    intro r hr hmax hrp
    by_cases hcase : p ≤ lo.1
    · have hpeq : p = r.1 := le_antisymm (hcase.trans (hmax lo hloS)) hrp
      obtain ⟨hhiS2, hhile, hhimin⟩ := hH.1 ⟨r, hr, hpeq.le⟩
      have h2 : hi = r := pairwise_fst_inj hdist hi hhiS2 r hr
        (le_antisymm (hhimin r hr hpeq.le) (hpeq ▸ hhile))
      rw [heval, lookupFinal_low p lo hi hcase, h2]
    · by_cases hEh : ∃ s ∈ r0 :: rest, p ≤ s.1
      · obtain ⟨s, hs, hps⟩ := hEh
        have hrp2 : r.1 = p := le_antisymm hrp (hps.trans (hmax s hs))
        obtain ⟨hloS2, hlole, hlomax⟩ := hL.1 ⟨r, hr, hrp⟩
        exact absurd (hrp2 ▸ hlomax r hr hrp) hcase
      · have hallt : ∀ s ∈ r0 :: rest, s.1 < p :=
          fun s hs => not_le.mp fun hle => hEh ⟨s, hs, hle⟩
        have h4 : hi = r0 := hH.2 hallt
        have h5 : hi.1 ≤ p := (hallt hi hhiS).le
        obtain ⟨hloS2, hlole, hlomax⟩ := hL.1 ⟨r, hr, hrp⟩
        have h6 : lo = r := pairwise_fst_inj hdist lo hloS2 r hr
          (le_antisymm (hmax lo hloS2) (hlomax r hr hrp))
        rw [heval, lookupFinal_high p lo hi hcase h5, h6]
  · -- strict interpolation between adjacent bracketing rows
    intro a b ha hb hap hpb hbr
    obtain ⟨hloS2, hlole, hlomax⟩ := hL.1 ⟨a, ha, hap.le⟩
    have h1 : a.1 ≤ lo.1 := hlomax a ha hap.le
    have h2 : lo.1 ≤ a.1 := by
      rcases hbr lo hloS2 with h | h
      · exact h
      · exact absurd (h.trans hlole) (not_le.mpr hpb)
    have hloa : lo = a := pairwise_fst_inj hdist lo hloS2 a ha (le_antisymm h2 h1)
    obtain ⟨hhiS2, hhile, hhimin⟩ := hH.1 ⟨b, hb, hpb.le⟩
    have h3 : hi.1 ≤ b.1 := hhimin b hb hpb.le
    have h4 : b.1 ≤ hi.1 := by
      rcases hbr hi hhiS2 with h | h
      · exact absurd (hhile.trans h) (not_le.mpr hap)
      · exact h
    have hhib : hi = b := pairwise_fst_inj hdist hi hhiS2 b hb (le_antisymm h3 h4)
    have hc1 : ¬p ≤ lo.1 := by rw [hloa]; exact not_le.mpr hap
    have hc2 : ¬hi.1 ≤ p := by rw [hhib]; exact not_le.mpr hpb
    rw [heval, lookupFinal_mid p lo hi hc1 hc2, hloa, hhib]

/-- C4 witness: a two-row table queried exactly at its first position. -/
theorem lookup_interpolation_correct_witness :
    builtin_lookup [Value.num (D.fin 0),
        Value.vec ([((0 : ℚ), (10 : ℚ)), ((1 : ℚ), (20 : ℚ))].map mkRow)]
      = some (Value.num (D.fin 10)) :=
  (lookup_interpolation_correct 0 (0, 10) [(1, 20)]
      (by norm_num [List.pairwise_cons])).1
    (0, 10) (List.mem_cons_self _ _) rfl

/-! ### C3: search result shapes -/

/-- All haystack positions matching one needle code point, from index `j`. -/
def strMatchIdxFrom (c : Char) : Nat → List Char → List Nat
  | _, [] => []
  | j, t :: ts =>
      if t = c then j :: strMatchIdxFrom c (j + 1) ts
      else strMatchIdxFrom c (j + 1) ts

/-- All row indices matching a needle value under the shared row-match rule
of `builtin_search`, from index `j`. -/
def matchIdxFrom (fv : Value) (icn : Nat) : Nat → List Value → List Nat
  | _, [] => []
  | j, row :: rows =>
      if matchAt fv row icn then j :: matchIdxFrom fv icn (j + 1) rows
      else matchIdxFrom fv icn (j + 1) rows

/-- All row indices whose rendered `icn` cell starts with the needle code
point, from index `j`. -/
def vecMatchIdxFrom (c : Char) (icn : Nat) : Nat → List Value → List Nat
  | _, [] => []
  | j, row :: rows =>
      if (Value.toStr ((Value.toVector row).getD icn Value.undef)).headD (Char.ofNat 0) = c
      then j :: vecMatchIdxFrom c icn (j + 1) rows
      else vecMatchIdxFrom c icn (j + 1) rows

/-- Cap a match list at `returnsPerMatch` matches (0 = unlimited). -/
def capRpm (rpm : Nat) (l : List Nat) : List Nat :=
  if rpm = 0 then l else l.take rpm

theorem searchStrScan_zero (c : Char) (ts : List Char) : ∀ j m,
    searchStrScan c 0 j m ts = strMatchIdxFrom c j ts := by
  induction ts with
  | nil => intro j m; rfl
  | cons t ts ih =>
      intro j m
      by_cases h : t = c <;> simp [searchStrScan, strMatchIdxFrom, h, ih]

theorem searchStrScan_pos (c : Char) (rpm : Nat) (hr : 1 ≤ rpm) (ts : List Char) :
    ∀ j m, m < rpm →
    searchStrScan c rpm j m ts = (strMatchIdxFrom c j ts).take (rpm - m) := by
  induction ts with
  | nil => intro j m hm; simp [searchStrScan, strMatchIdxFrom]
  | cons t ts ih =>
      intro j m hm
      by_cases h : t = c
      · by_cases hr1 : rpm = 1
        · subst hr1
          have hm0 : m = 0 := by omega
          subst hm0
          simp [searchStrScan, strMatchIdxFrom, h]
        · by_cases hbr : rpm > 1 ∧ m + 1 ≥ rpm
          · have hrm : rpm - m = 1 := by omega
            simp [searchStrScan, strMatchIdxFrom, h, hr1, hbr, hrm]
          · have hlt : m + 1 < rpm := by omega
            have hrm : rpm - m = (rpm - (m + 1)) + 1 := by omega
            rw [show searchStrScan c rpm j m (t :: ts)
                = j :: searchStrScan c rpm (j + 1) (m + 1) ts from by
              simp [searchStrScan, h, hr1, hbr]]
            rw [ih (j + 1) (m + 1) hlt]
            rw [show strMatchIdxFrom c j (t :: ts)
                = j :: strMatchIdxFrom c (j + 1) ts from by simp [strMatchIdxFrom, h]]
            rw [hrm, List.take_succ_cons]
      · simp [searchStrScan, strMatchIdxFrom, h, ih (j + 1) m hm]

theorem searchNumScan_zero (fv : Value) (icn : Nat) (rows : List Value) : ∀ j m,
    searchNumScan fv 0 icn j m rows = matchIdxFrom fv icn j rows := by
  induction rows with
  | nil => intro j m; rfl
  | cons r rs ih =>
      intro j m
      by_cases h : matchAt fv r icn <;> simp [searchNumScan, matchIdxFrom, h, ih]

theorem searchNumScan_pos (fv : Value) (rpm icn : Nat) (hr : 1 ≤ rpm)
    (rows : List Value) : ∀ j m, m < rpm →
    searchNumScan fv rpm icn j m rows = (matchIdxFrom fv icn j rows).take (rpm - m) := by
  induction rows with
  | nil => intro j m hm; simp [searchNumScan, matchIdxFrom]
  | cons r rs ih =>
      intro j m hm
      by_cases h : matchAt fv r icn
      · by_cases hbr : rpm ≠ 0 ∧ m + 1 ≥ rpm
        · have hrm : rpm - m = 1 := by omega
          simp [searchNumScan, matchIdxFrom, h, hbr, hrm]
        · have hlt : m + 1 < rpm := by omega
          have hrm : rpm - m = (rpm - (m + 1)) + 1 := by omega
          rw [show searchNumScan fv rpm icn j m (r :: rs)
              = j :: searchNumScan fv rpm icn (j + 1) (m + 1) rs from by
            simp [searchNumScan, h, hbr]]
          rw [ih (j + 1) (m + 1) hlt]
          rw [show matchIdxFrom fv icn j (r :: rs)
              = j :: matchIdxFrom fv icn (j + 1) rs from by simp [matchIdxFrom, h]]
          rw [hrm, List.take_succ_cons]
      · simp [searchNumScan, matchIdxFrom, h, ih (j + 1) m hm]

theorem searchElemScan_zero (fv : Value) (icn : Nat) (rows : List Value) : ∀ j m,
    searchElemScan fv 0 icn j m rows = matchIdxFrom fv icn j rows := by
  induction rows with
  | nil => intro j m; rfl
  | cons r rs ih =>
      intro j m
      by_cases h : matchAt fv r icn <;> simp [searchElemScan, matchIdxFrom, h, ih]

theorem searchElemScan_pos (fv : Value) (rpm icn : Nat) (hr : 1 ≤ rpm)
    (rows : List Value) : ∀ j m, m < rpm →
    searchElemScan fv rpm icn j m rows = (matchIdxFrom fv icn j rows).take (rpm - m) := by
  induction rows with
  | nil => intro j m hm; simp [searchElemScan, matchIdxFrom]
  | cons r rs ih =>
      intro j m hm
      by_cases h : matchAt fv r icn
      · by_cases hr1 : rpm = 1
        · subst hr1
          have hm0 : m = 0 := by omega
          subst hm0
          simp [searchElemScan, matchIdxFrom, h]
        · by_cases hbr : rpm > 1 ∧ m + 1 ≥ rpm
          · have hrm : rpm - m = 1 := by omega
            simp [searchElemScan, matchIdxFrom, h, hr1, hbr, hrm]
          · have hlt : m + 1 < rpm := by omega
            have hrm : rpm - m = (rpm - (m + 1)) + 1 := by omega
            rw [show searchElemScan fv rpm icn j m (r :: rs)
                = j :: searchElemScan fv rpm icn (j + 1) (m + 1) rs from by
              simp [searchElemScan, h, hr1, hbr]]
            rw [ih (j + 1) (m + 1) hlt]
            rw [show matchIdxFrom fv icn j (r :: rs)
                = j :: matchIdxFrom fv icn (j + 1) rs from by simp [matchIdxFrom, h]]
            rw [hrm, List.take_succ_cons]
      · simp [searchElemScan, matchIdxFrom, h, ih (j + 1) m hm]

theorem searchVecScan_cons (c : Char) (rpm icn : Nat) (j m : Nat) (r : Value)
    (rs : List Value) (cell : Value)
    (hget : (Value.toVector r).get? icn = some cell) :
    searchVecScan c rpm icn j m (r :: rs)
      = if (Value.toStr cell).headD (Char.ofNat 0) = c then
          if rpm = 1 then some [j]
          else if rpm > 1 ∧ m + 1 ≥ rpm then some [j]
          else (searchVecScan c rpm icn (j + 1) (m + 1) rs).map (fun l => j :: l)
        else searchVecScan c rpm icn (j + 1) m rs := by
  rw [searchVecScan, hget]

theorem vecMatchIdxFrom_cons (c : Char) (icn : Nat) (j : Nat) (r : Value)
    (rs : List Value) (cell : Value)
    (hget : (Value.toVector r).get? icn = some cell) :
    vecMatchIdxFrom c icn j (r :: rs)
      = if (Value.toStr cell).headD (Char.ofNat 0) = c then
          j :: vecMatchIdxFrom c icn (j + 1) rs
        else vecMatchIdxFrom c icn (j + 1) rs := by
  have hgd : (Value.toVector r).getD icn Value.undef = cell := by
    rw [List.getD_eq_getElem?_getD, ← List.get?_eq_getElem?, hget]
    rfl
  rw [vecMatchIdxFrom, hgd]

theorem searchVecScan_zero (c : Char) (icn : Nat) (rows : List Value)
    (hin : ∀ row ∈ rows, icn < (Value.toVector row).length) : ∀ j m,
    searchVecScan c 0 icn j m rows = some (vecMatchIdxFrom c icn j rows) := by
  induction rows with
  | nil => intro j m; rfl
  | cons r rs ih =>
      intro j m
      obtain ⟨cell, hget⟩ : ∃ v, (Value.toVector r).get? icn = some v :=
        ⟨_, List.get?_eq_get (hin r (List.mem_cons_self _ _))⟩
      have hin2 : ∀ row ∈ rs, icn < (Value.toVector row).length :=
        fun row hrow => hin row (List.mem_cons_of_mem _ hrow)
      rw [searchVecScan_cons c 0 icn j m r rs cell hget,
        vecMatchIdxFrom_cons c icn j r rs cell hget]
      by_cases h : (Value.toStr cell).headD (Char.ofNat 0) = c
      · rw [if_pos h, if_pos h, if_neg (by omega), if_neg (by omega),
          ih hin2 (j + 1) (m + 1)]
        rfl
      · rw [if_neg h, if_neg h, ih hin2 (j + 1) m]

theorem searchVecScan_pos (c : Char) (rpm icn : Nat) (hr : 1 ≤ rpm)
    (rows : List Value)
    (hin : ∀ row ∈ rows, icn < (Value.toVector row).length) : ∀ j m, m < rpm →
    searchVecScan c rpm icn j m rows
      = some ((vecMatchIdxFrom c icn j rows).take (rpm - m)) := by
  induction rows with
  | nil => intro j m hm; simp [searchVecScan, vecMatchIdxFrom]
  | cons r rs ih =>
      intro j m hm
      obtain ⟨cell, hget⟩ : ∃ v, (Value.toVector r).get? icn = some v :=
        ⟨_, List.get?_eq_get (hin r (List.mem_cons_self _ _))⟩
      have hin2 : ∀ row ∈ rs, icn < (Value.toVector row).length :=
        fun row hrow => hin row (List.mem_cons_of_mem _ hrow)
      rw [searchVecScan_cons c rpm icn j m r rs cell hget,
        vecMatchIdxFrom_cons c icn j r rs cell hget]
      by_cases h : (Value.toStr cell).headD (Char.ofNat 0) = c
      · rw [if_pos h, if_pos h]
        by_cases hr1 : rpm = 1
        · subst hr1
          have hm0 : m = 0 := by omega
          subst hm0
          rw [if_pos rfl]
          rfl
        · rw [if_neg hr1]
          by_cases hbr : rpm > 1 ∧ m + 1 ≥ rpm
          · have hrm : rpm - m = 1 := by omega
            rw [if_pos hbr, hrm, List.take_succ_cons, List.take_zero]
          · have hlt : m + 1 < rpm := by omega
            have hrm : rpm - m = (rpm - (m + 1)) + 1 := by omega
            rw [if_neg hbr, ih hin2 (j + 1) (m + 1) hlt, hrm, List.take_succ_cons]
            rfl
      · rw [if_neg h, if_neg h, ih hin2 (j + 1) m hm]

theorem search_string_cons (t : List Char) (rpm icn : Nat) (c : Char) (cs : List Char) :
    search_string t rpm icn (c :: cs)
      = ((if rpm = 1 then (searchStrScan c rpm 0 0 t).map natNum
          else [Value.vec ((searchStrScan c rpm 0 0 t).map natNum)])
          ++ (search_string t rpm icn cs).1,
         (if (searchStrScan c rpm 0 0 t).length = 0 then [notFoundMsg c] else [])
          ++ (search_string t rpm icn cs).2) := by
  rcases hrec : search_string t rpm icn cs with ⟨L, W⟩
  simp [search_string, hrec]

/-- String needle, String haystack, `returnsPerMatch == 1`: a flat sequence
of first-match indices, omitting needle code points without a match. -/
theorem search_string_rpm1 (t : List Char) (icn : Nat) : ∀ f : List Char,
    (search_string t 1 icn f).1
      = f.filterMap fun c => ((strMatchIdxFrom c 0 t).head?).map natNum := by
  intro f
  induction f with
  | nil => rfl
  | cons c cs ih =>
      rw [search_string_cons, List.filterMap_cons]
      have hscan : searchStrScan c 1 0 0 t = (strMatchIdxFrom c 0 t).take 1 := by
        have h := searchStrScan_pos c 1 (le_refl 1) t 0 0 (by omega)
        simpa using h
      rcases hm : strMatchIdxFrom c 0 t with _ | ⟨j, js⟩ <;> simp [hscan, hm, ih]

/-- String needle, String haystack, `returnsPerMatch ≠ 1`: one sub-vector
per needle code point, capped (unlimited at 0). -/
theorem search_string_rpmN (t : List Char) (rpm icn : Nat) (h : rpm ≠ 1) :
    ∀ f : List Char,
    (search_string t rpm icn f).1
      = f.map fun c => Value.vec ((capRpm rpm (strMatchIdxFrom c 0 t)).map natNum) := by
  intro f
  induction f with
  | nil => rfl
  | cons c cs ih =>
      rw [search_string_cons, List.map_cons]
      have hscan : searchStrScan c rpm 0 0 t = capRpm rpm (strMatchIdxFrom c 0 t) := by
        by_cases h0 : rpm = 0
        · subst h0
          rw [searchStrScan_zero]
          simp [capRpm]
        · have h1 : 1 ≤ rpm := by omega
          rw [searchStrScan_pos c rpm h1 t 0 0 (by omega)]
          simp [capRpm, h0]
      rw [hscan, if_neg h, ih]
      rfl

theorem search_vector_cons (rows : List Value) (rpm icn : Nat) (c : Char)
    (cs : List Char) (res : List Nat)
    (hres : searchVecScan c rpm icn 0 0 rows = some res)
    (L : List Value) (W : List String)
    (hrec : search_vector rows rpm icn cs = some (L, W)) :
    search_vector rows rpm icn (c :: cs)
      = some ((if rpm = 1 then res.map natNum else [Value.vec (res.map natNum)]) ++ L,
              (if res.length = 0 then [notFoundMsg c] else []) ++ W) := by
  simp [search_vector, hres, hrec]

/-- String needle, Vector haystack: under in-bounds column access the helper
returns the same shapes as the String-haystack helper. -/
theorem search_vector_eval (rows : List Value) (rpm icn : Nat)
    (hin : ∀ row ∈ rows, icn < (Value.toVector row).length) : ∀ f : List Char,
    ∃ w : List String, search_vector rows rpm icn f = some (
      (if rpm = 1 then
        f.filterMap fun c => ((vecMatchIdxFrom c icn 0 rows).head?).map natNum
       else
        f.map fun c => Value.vec ((capRpm rpm (vecMatchIdxFrom c icn 0 rows)).map natNum)),
      w) := by
  intro f
  induction f with
  | nil =>
      refine ⟨[], ?_⟩
      by_cases h1 : rpm = 1 <;> simp [search_vector, h1]
  | cons c cs ih =>
      obtain ⟨w, hw⟩ := ih
      have hscan : searchVecScan c rpm icn 0 0 rows
          = some (capRpm rpm (vecMatchIdxFrom c icn 0 rows)) := by
        by_cases h0 : rpm = 0
        · subst h0
          rw [searchVecScan_zero c icn rows hin 0 0]
          simp [capRpm]
        · have h1 : 1 ≤ rpm := by omega
          rw [searchVecScan_pos c rpm icn h1 rows hin 0 0 (by omega)]
          simp [capRpm, h0]
      by_cases h1 : rpm = 1
      · subst h1
        refine ⟨(if (capRpm 1 (vecMatchIdxFrom c icn 0 rows)).length = 0
            then [notFoundMsg c] else []) ++ w, ?_⟩
        rw [search_vector_cons rows 1 icn c cs _ hscan _ _ hw]
        rcases hm : vecMatchIdxFrom c icn 0 rows with _ | ⟨j, js⟩ <;>
          simp [capRpm, List.filterMap_cons, hm]
      · refine ⟨(if (capRpm rpm (vecMatchIdxFrom c icn 0 rows)).length = 0
            then [notFoundMsg c] else []) ++ w, ?_⟩
        rw [search_vector_cons rows rpm icn c cs _ hscan _ _ hw]
        simp [h1]

theorem searchVecNeedle_cons (table : List Value) (rpm icn : Nat) (fv : Value)
    (fvs : List Value) :
    searchVecNeedle table rpm icn (fv :: fvs)
      = ((if rpm = 1 then
            (if (searchElemScan fv rpm icn 0 0 table).length = 0 then [Value.vec []]
             else (searchElemScan fv rpm icn 0 0 table).map natNum)
          else [Value.vec ((searchElemScan fv rpm icn 0 0 table).map natNum)])
          ++ (searchVecNeedle table rpm icn fvs).1,
         (if rpm = 1 ∧ (searchElemScan fv rpm icn 0 0 table).length = 0
          then searchNotFoundWarn fv else [])
          ++ (searchVecNeedle table rpm icn fvs).2) := by
  rcases hrec : searchVecNeedle table rpm icn fvs with ⟨L, W⟩
  simp [searchVecNeedle, hrec]

/-- Vector needle: with `returnsPerMatch == 1`, per needle element either a
flat first-match scalar or an EMPTY sub-vector (not omitted); otherwise one
capped sub-vector per needle element. -/
theorem searchVecNeedle_shape (table : List Value) (rpm icn : Nat) :
    ∀ fs : List Value,
    (rpm = 1 → (searchVecNeedle table rpm icn fs).1
        = fs.map fun fv =>
            match (matchIdxFrom fv icn 0 table).head? with
            | some j => natNum j
            | none => Value.vec [])
  ∧ (rpm ≠ 1 → (searchVecNeedle table rpm icn fs).1
        = fs.map fun fv =>
            Value.vec ((capRpm rpm (matchIdxFrom fv icn 0 table)).map natNum)) := by
  intro fs
  induction fs with
  | nil => exact ⟨fun _ => rfl, fun _ => rfl⟩
  | cons fv fvs ih =>
      constructor
      · intro h1
        subst h1
        rw [searchVecNeedle_cons, List.map_cons]
        have hscan : searchElemScan fv 1 icn 0 0 table
            = (matchIdxFrom fv icn 0 table).take 1 := by
          have h := searchElemScan_pos fv 1 icn (le_refl 1) table 0 0 (by omega)
          simpa using h
        rcases hm : matchIdxFrom fv icn 0 table with _ | ⟨j, js⟩ <;>
          simp [hscan, hm, ih.1 rfl]
      · intro h1
        rw [searchVecNeedle_cons, List.map_cons]
        have hscan : searchElemScan fv rpm icn 0 0 table
            = capRpm rpm (matchIdxFrom fv icn 0 table) := by
          by_cases h0 : rpm = 0
          · subst h0
            rw [searchElemScan_zero]
            simp [capRpm]
          · have hge : 1 ≤ rpm := by omega
            rw [searchElemScan_pos fv rpm icn hge table 0 0 (by omega)]
            simp [capRpm, h0]
        rw [hscan, if_neg h1, ih.2 h1]
        rfl

theorem castUInt_natCast (n : Nat) : D.castUInt (D.fin (n : ℚ)) = n := by
  simp [D.castUInt]

theorem builtin_search_str_str (f t : List Char) (rpm : Nat) :
    builtin_search [Value.str f, Value.str t, natNum rpm]
      = some (Value.vec (search_string t rpm 0 f).1, (search_string t rpm 0 f).2) := by
  rcases hls : search_string t rpm 0 f with ⟨L, W⟩
  simp [builtin_search, natNum, castUInt_natCast, Value.toDouble, Value.getDouble, hls]

theorem builtin_search_str_vec (f : List Char) (rows : List Value) (rpm icn : Nat)
    (L : List Value) (W : List String)
    (h : search_vector rows rpm icn f = some (L, W)) :
    builtin_search [Value.str f, Value.vec rows, natNum rpm, natNum icn]
      = some (Value.vec L, W) := by
  simp [builtin_search, natNum, castUInt_natCast, Value.toDouble, Value.getDouble,
    Value.toVector, h]

theorem builtin_search_vec_needle (fs rows : List Value) (rpm icn : Nat) :
    builtin_search [Value.vec fs, Value.vec rows, natNum rpm, natNum icn]
      = some (Value.vec (searchVecNeedle rows rpm icn fs).1,
              (searchVecNeedle rows rpm icn fs).2) := by
  rcases hrec : searchVecNeedle rows rpm icn fs with ⟨L, W⟩
  simp [builtin_search, natNum, castUInt_natCast, Value.toDouble, Value.getDouble,
    Value.toVector, hrec]

theorem builtin_search_num (d : D) (rows : List Value) (rpm icn : Nat) :
    builtin_search [Value.num d, Value.vec rows, natNum rpm, natNum icn]
      = some (Value.vec
          ((capRpm rpm (matchIdxFrom (Value.num d) icn 0 rows)).map natNum), []) := by
  have hscan : searchNumScan (Value.num d) rpm icn 0 0 rows
      = capRpm rpm (matchIdxFrom (Value.num d) icn 0 rows) := by
    by_cases h0 : rpm = 0
    · subst h0
      rw [searchNumScan_zero]
      simp [capRpm]
    · have hge : 1 ≤ rpm := by omega
      rw [searchNumScan_pos (Value.num d) rpm icn hge rows 0 0 (by omega)]
      simp [capRpm, h0]
  simp [builtin_search, natNum, castUInt_natCast, Value.toDouble, Value.getDouble,
    Value.toVector, hscan]

/-- C3 counterexample: Number-needle `search` with `returnsPerMatch == 0`
returns a FLAT sequence of matched indices (`[0, 1]`), not a sequence of
per-needle-element sub-sequences (`[[0, 1]]`): its first element is a
scalar, not a sub-sequence. -/
theorem search_shape_cex :
    builtin_search [Value.num (D.fin 1),
        Value.vec [Value.num (D.fin 1), Value.num (D.fin 1)], Value.num (D.fin 0)]
      = some (Value.vec [natNum 0, natNum 1], [])
  ∧ (natNum 0).isVec = false :=
  ⟨rfl, rfl⟩

/-- C3 amended: the result-shape policy is per needle mode, not uniform.
String needle (String or Vector haystack): with `returnsPerMatch == 1` a
flat sequence of first-match indices omitting no-match needle elements;
with `returnsPerMatch == 0` or `> 1` one sub-sequence per needle element
(capped, unlimited at 0), present even when empty.  Vector needle: the
same except that with `returnsPerMatch == 1` a no-match needle element
contributes an EMPTY sub-sequence instead of being omitted.  Number
needle: always a flat sequence of matching row indices capped at
`returnsPerMatch` (unlimited at 0), regardless of its value. -/
theorem search_shape_amended :
    (∀ (f t : List Char) (rpm : Nat),
        (rpm = 1 →
          builtin_search [Value.str f, Value.str t, natNum rpm]
            = some (Value.vec (f.filterMap fun c =>
                ((strMatchIdxFrom c 0 t).head?).map natNum),
                (search_string t rpm 0 f).2))
      ∧ (rpm ≠ 1 →
          builtin_search [Value.str f, Value.str t, natNum rpm]
            = some (Value.vec (f.map fun c =>
                Value.vec ((capRpm rpm (strMatchIdxFrom c 0 t)).map natNum)),
                (search_string t rpm 0 f).2)))
  ∧ (∀ (f : List Char) (rows : List Value) (rpm icn : Nat),
        (∀ row ∈ rows, icn < (Value.toVector row).length) →
        ∃ w : List String,
          (rpm = 1 →
            builtin_search [Value.str f, Value.vec rows, natNum rpm, natNum icn]
              = some (Value.vec (f.filterMap fun c =>
                  ((vecMatchIdxFrom c icn 0 rows).head?).map natNum), w))
        ∧ (rpm ≠ 1 →
            builtin_search [Value.str f, Value.vec rows, natNum rpm, natNum icn]
              = some (Value.vec (f.map fun c =>
                  Value.vec ((capRpm rpm (vecMatchIdxFrom c icn 0 rows)).map natNum)),
                  w)))
  ∧ (∀ (fs rows : List Value) (rpm icn : Nat),
        (rpm = 1 →
          builtin_search [Value.vec fs, Value.vec rows, natNum rpm, natNum icn]
            = some (Value.vec (fs.map fun fv =>
                match (matchIdxFrom fv icn 0 rows).head? with
                | some j => natNum j
                | none => Value.vec []),
                (searchVecNeedle rows rpm icn fs).2))
      ∧ (rpm ≠ 1 →
          builtin_search [Value.vec fs, Value.vec rows, natNum rpm, natNum icn]
            = some (Value.vec (fs.map fun fv =>
                Value.vec ((capRpm rpm (matchIdxFrom fv icn 0 rows)).map natNum)),
                (searchVecNeedle rows rpm icn fs).2)))
  ∧ (∀ (d : D) (rows : List Value) (rpm icn : Nat),
        builtin_search [Value.num d, Value.vec rows, natNum rpm, natNum icn]
          = some (Value.vec
              ((capRpm rpm (matchIdxFrom (Value.num d) icn 0 rows)).map natNum),
              [])) := by
  refine ⟨?_, ?_, ?_, builtin_search_num⟩
  · intro f t rpm
    constructor
    · intro h1
      subst h1
      rw [builtin_search_str_str, search_string_rpm1 t 0 f]
    · intro h1
      rw [builtin_search_str_str, search_string_rpmN t rpm 0 h1 f]
  · intro f rows rpm icn hin
    obtain ⟨w, hw⟩ := search_vector_eval rows rpm icn hin f
    refine ⟨w, ?_, ?_⟩
    · intro h1
      subst h1
      have hw2 : search_vector rows 1 icn f
          = some (f.filterMap fun c =>
              ((vecMatchIdxFrom c icn 0 rows).head?).map natNum, w) := by
        rw [hw]
        simp
      exact builtin_search_str_vec f rows 1 icn _ w hw2
    · intro h1
      have hw2 : search_vector rows rpm icn f
          = some (f.map fun c =>
              Value.vec ((capRpm rpm (vecMatchIdxFrom c icn 0 rows)).map natNum), w) := by
        rw [hw]
        simp [h1]
      exact builtin_search_str_vec f rows rpm icn _ w hw2
  · intro fs rows rpm icn
    constructor
    · intro h1
      subst h1
      rw [builtin_search_vec_needle, (searchVecNeedle_shape rows 1 icn fs).1 rfl]
    · intro h1
      rw [builtin_search_vec_needle, (searchVecNeedle_shape rows rpm icn fs).2 h1]

/-- C3 witness: `search("a", "aba")` (default-shape mode applied at
`returnsPerMatch == 1`) returns the flat `[0]`. -/
theorem search_shape_amended_witness :
    builtin_search [Value.str ['a'], Value.str ['a', 'b', 'a'], natNum 1]
      = some (Value.vec [natNum 0], []) := by
  have h := (search_shape_amended.1 ['a'] ['a', 'b', 'a'] 1).1 rfl
  exact h.trans (by rfl)
